import Mathlib

/-!
Shallow embedding of the `varouter` path-matching router (varouter.go) and
proofs about its registration and matching behaviour.

Byte strings are modelled as `List Char` (`Str`).  The Go `map[string]*element`
is modelled as an association list (`Subs`) kept in insertion order; Go map
iteration order is unspecified, insertion order is one refinement of it.
Pointer mutation is modelled by functional tree rebuilding: every operation
returns the updated subtree, and updates that Go performs before returning an
error are likewise kept in the returned tree.
-/

set_option autoImplicit false

/-- Byte strings of the Go source, modelled as lists of characters. -/
abbrev Str := List Char

/-- `s[i]`, with a NUL default out of range (the Go code only indexes in
range on the paths exercised here; the one exception, `Register "!"` on a
one-byte template, panics in Go and is mapped to an error below). -/
def getByte (s : Str) (i : Nat) : Char := s.getD i (Char.ofNat 0)

/-- `s[a:b]` of the Go source (named to avoid clashing with library `slice`). -/
def substr (s : Str) (a b : Nat) : Str := (s.drop a).take (b - a)

mutual
/-- `element` of varouter.go: one node of the registration tree.
Field order and names follow the source; `isPfx`/`hasPfxs` stand for the
source's `isprefix`/`hasprefixes`. -/
inductive Element where
  | mk (subs : Subs) (template : Str) (hasvariable : Str)
       (isPfx : Bool) (isoverride : Bool) (iswildcard : Bool)
       (hasPfxs : Bool) (haswildcards : Bool)

/-- `elements` of varouter.go (`map[string]*element`), as an association
list in insertion order. -/
inductive Subs where
  | nil
  | cons (key : Str) (val : Element) (rest : Subs)
end

namespace Element

def subs : Element → Subs
  | .mk s _ _ _ _ _ _ _ => s

def template : Element → Str
  | .mk _ t _ _ _ _ _ _ => t

def hasvariable : Element → Str
  | .mk _ _ v _ _ _ _ _ => v

def isPfx : Element → Bool
  | .mk _ _ _ p _ _ _ _ => p

def isoverride : Element → Bool
  | .mk _ _ _ _ o _ _ _ => o

def iswildcard : Element → Bool
  | .mk _ _ _ _ _ w _ _ => w

def hasPfxs : Element → Bool
  | .mk _ _ _ _ _ _ h _ => h

def haswildcards : Element → Bool
  | .mk _ _ _ _ _ _ _ h => h

/-- Replace the sub map. -/
def setSubs : Element → Subs → Element
  | .mk _ t v p o w hp hw, s => .mk s t v p o w hp hw

/-- `e.template = t` of the source. -/
def setTemplate : Element → Str → Element
  | .mk s _ v p o w hp hw, t => .mk s t v p o w hp hw

/-- `e.hasvariable = n` of the source. -/
def setHasvariable : Element → Str → Element
  | .mk s t _ p o w hp hw, v => .mk s t v p o w hp hw

/-- `e.isoverride = true` of the source. -/
def setIsoverride : Element → Element
  | .mk s t v p _ w hp hw => .mk s t v p true w hp hw

/-- `e.hasprefixes = true` of the source. -/
def markHasPfxs : Element → Element
  | .mk s t v p o w _ hw => .mk s t v p o w true hw

/-- `e.haswildcards = true` of the source. -/
def markHaswildcards : Element → Element
  | .mk s t v p o w hp _ => .mk s t v p o w hp true

end Element

/-- `newElement()` of varouter.go. -/
def newElement : Element := .mk .nil [] [] false false false false false

namespace Subs

/-- Go map lookup `m[name]` (keys inserted at most once, so first match). -/
def lookup : Subs → Str → Option Element
  | .nil, _ => none
  | .cons k v rest, name => if k = name then some v else lookup rest name

/-- Go map insertion of a key not yet present; appended so that iteration
order is insertion order. -/
def push : Subs → Str → Element → Subs
  | .nil, k, v => .cons k v .nil
  | .cons a b rest, k, v => .cons a b (push rest k v)

/-- Replace the value stored at an existing key (pointer update in Go). -/
def set : Subs → Str → Element → Subs
  | .nil, _, _ => .nil
  | .cons a b rest, k, v => if a = k then .cons k v rest else .cons a b (set rest k v)

/-- `len(subs) == 0` of the Go source. -/
def isNil : Subs → Bool
  | .nil => true
  | .cons _ _ _ => false

end Subs

/-- Registration error kinds of varouter.go, named after the error messages. -/
inductive Err where
  /-- "empty template name" -/
  | emptyTemplate
  /-- "prefix character allowed only as suffix" -/
  | misplacedPfx
  /-- "invalid template" -/
  | invalidTemplate
  /-- "duplicate template" -/
  | duplicateTemplate
  /-- "element registration on a level with a variable" -/
  | levelHasVariable
  /-- "empty variable name" -/
  | emptyVariableName
  /-- "invalid variable name" -/
  | invalidVariableName
  /-- "multiple variable registrations on a path level" -/
  | multipleVariables
  /-- "variable names cannot contain wildcards" -/
  | wildcardInVariable
  deriving DecidableEq

/-- `Varouter` of varouter.go.  `pfxc` and `varc` stand for the source's
`prefix` and `variable` configuration bytes. -/
structure Varouter where
  count : Nat
  root : Element
  override : Char
  separator : Char
  varc : Char
  pfxc : Char
  wildcardone : Char
  wildcardmany : Char

/-- `NewVarouter` of varouter.go (the `usewildcards` argument is unused in
the source constructor as well). -/
def NewVarouter (override separator varc pfxc wildcardone wildcardmany : Char) : Varouter :=
  { count := 0, root := newElement, override := override, separator := separator,
    varc := varc, pfxc := pfxc, wildcardone := wildcardone, wildcardmany := wildcardmany }

/-- `New()` of varouter.go. -/
def New : Varouter := NewVarouter '!' '/' ':' '+' '?' '*'

/-- `hasWildcards` of varouter.go: does the name contain a wildcard byte. -/
def hasWildcards (vr : Varouter) (name : Str) : Bool :=
  name.any fun c => c = vr.wildcardone ∨ c = vr.wildcardmany

/-- `validateVariableName` of varouter.go. -/
def validateVariableName (vr : Varouter) (name : Str) : Option Err :=
  if name.length ≤ 2 then some .emptyVariableName
  else if (name.drop 2).any (fun c => c = vr.varc) then some .invalidVariableName
  else none

/-- Result of one `matchOrInsert` step: the possibly mutated parent (Go
mutates it even on some error paths), and on success the key and child
descended into, whether the child pre-existed, and whether a node was
created (`vr.count++`). -/
structure MOIOut where
  err : Option Err
  parent : Element
  key : Str
  child : Element
  existing : Bool
  created : Bool

/-- The fresh child created by `matchOrInsert`: `newElement()` with
`iswildcard` computed, and `isprefix`/`isoverride` set when this is the
final element (`state.cursor >= state.length`). -/
def mkChild (final pfx ov iswild : Bool) : Element :=
  .mk .nil [] [] (final && pfx) (final && ov) iswild false false

/-- `matchOrInsert` of varouter.go, for a single element name.
`final` is `state.cursor >= state.length` (equivalently `==` at the only
final call site). -/
def matchOrInsert (vr : Varouter) (e : Element) (name0 : Str) (final ov : Bool) : MOIOut :=
  let pfx : Bool := getByte name0 (name0.length - 1) = vr.pfxc
  let name := if pfx then name0.dropLast else name0
  match e.subs.lookup name with
  | some elem =>
      if final ∧ e.template ≠ [] then
        { err := some .duplicateTemplate, parent := e, key := name, child := elem,
          existing := true, created := false }
      else
        { err := none, parent := e, key := name, child := elem,
          existing := true, created := false }
  | none =>
      let e1 := if pfx then e.markHasPfxs else e
      let iswild := hasWildcards vr name
      let e2 := if iswild then e1.markHaswildcards else e1
      if e2.hasvariable ≠ [] then
        { err := some .levelHasVariable, parent := e2, key := name, child := newElement,
          existing := false, created := false }
      else if name.length > 1 ∧ getByte name 1 = vr.varc then
        match validateVariableName vr name with
        | some er =>
            { err := some er, parent := e2, key := name, child := newElement,
              existing := false, created := false }
        | none =>
            if e2.subs.isNil = false then
              { err := some .multipleVariables, parent := e2, key := name, child := newElement,
                existing := false, created := false }
            else if iswild then
              { err := some .wildcardInVariable, parent := e2, key := name, child := newElement,
                existing := false, created := false }
            else
              let child := mkChild final pfx ov iswild
              let e3 := e2.setHasvariable name
              { err := none, parent := e3.setSubs (e3.subs.push name child), key := name,
                child := child, existing := false, created := true }
      else
        let child := mkChild final pfx ov iswild
        { err := none, parent := e2.setSubs (e2.subs.push name child), key := name,
          child := child, existing := false, created := true }

/-- Count contribution of one `matchOrInsert` step. -/
def MOIOut.countd (m : MOIOut) : Nat := if m.created then 1 else 0

/-- Result of the registration walk over a subtree. -/
structure RegOut where
  err : Option Err
  tree : Element
  countd : Nat
  existingFinal : Bool

/-- The element-walking loop of `Register` (varouter.go lines 450-470),
rebuilding the tree functionally.  At the final element it also performs
the trailing duplicate check and terminal assignment of `Register`. -/
def regAux (vr : Varouter) (tpl : Str) (e : Element) (marker cursor : Nat) (ov : Bool) :
    RegOut :=
  if _h : cursor < tpl.length then
    if getByte tpl cursor ≠ vr.separator then
      regAux vr tpl e marker (cursor + 1) ov
    else
      let m := matchOrInsert vr e (substr tpl marker cursor) false ov
      match m.err with
      | some er => { err := some er, tree := m.parent, countd := m.countd, existingFinal := false }
      | none =>
          let r := regAux vr tpl m.child cursor (cursor + 1) ov
          { err := r.err, tree := m.parent.setSubs (m.parent.subs.set m.key r.tree),
            countd := m.countd + r.countd, existingFinal := r.existingFinal }
  else
    let m := matchOrInsert vr e (substr tpl marker cursor) true ov
    match m.err with
    | some er => { err := some er, tree := m.parent, countd := m.countd, existingFinal := false }
    | none =>
        if m.existing then
          { err := some .duplicateTemplate, tree := m.parent, countd := m.countd,
            existingFinal := true }
        else
          let c1 := if ov then m.child.setIsoverride else m.child
          let c2 := c1.setTemplate tpl
          { err := none, tree := m.parent.setSubs (m.parent.subs.set m.key c2),
            countd := m.countd, existingFinal := false }
termination_by tpl.length + 1 - cursor
decreasing_by
  · omega
  · omega

/-- The misplaced-prefix scan of `Register` (lines 436-440): some byte of
the template other than the last one is the prefix byte. -/
def scanPfx (vr : Varouter) (tpl : Str) (cursor : Nat) : Bool :=
  if _h : cursor < tpl.length then
    if getByte tpl cursor = vr.pfxc ∧ cursor < tpl.length - 1 then true
    else scanPfx vr tpl (cursor + 1)
  else false
termination_by tpl.length - cursor

/-- `Register` of varouter.go.  Returns the error (if any) together with the
updated router; Go mutates `vr` in place, and the mutations it performs
before returning an error are kept. -/
def Register (vr : Varouter) (tpl : Str) : Option Err × Varouter :=
  if tpl.length < 1 then (some .emptyTemplate, vr)
  else if scanPfx vr tpl 0 then (some .misplacedPfx, vr)
  else
    let ov : Bool := getByte tpl 0 = vr.override
    let marker := if ov then 1 else 0
    let cursor := if ov then 2 else 1
    if getByte tpl marker ≠ vr.separator then (some .invalidTemplate, vr)
    else
      let r := regAux vr tpl vr.root marker cursor ov
      (r.err, { vr with root := r.tree, count := vr.count + r.countd })

/-- `NumTemplates` of varouter.go. -/
def NumTemplates (vr : Varouter) : Nat := vr.count

mutual
/-- `printElement` of varouter.go: collect non-empty templates, appending
per sub entry before recursing into it. -/
def printElement : Element → List Str → List Str
  | .mk s _ _ _ _ _ _ _, a => printSubs s a

def printSubs : Subs → List Str → List Str
  | .nil, a => a
  | .cons _ v rest, a =>
      printSubs rest (printElement v (if v.template ≠ [] then a ++ [v.template] else a))
end

/-- `DefinedTemplates` of varouter.go. -/
def DefinedTemplates (vr : Varouter) : List Str := printElement vr.root []

/-- String-literal convenience for concrete test inputs. -/
def str (s : String) : Str := s.data

/-- `Vars` of varouter.go: variable bindings, as an assignment list. -/
abbrev Vars := List (Str × Str)

/-- Go map assignment `m[k] = v`: overwrite an existing binding, else append. -/
def varsSet : Vars → Str → Str → Vars
  | [], k, v => [(k, v)]
  | (a, b) :: rest, k, v => if a = k then (k, v) :: rest else (a, b) :: varsSet rest k v

/-- `matchState` of varouter.go (without the `current` pointer, which is
passed separately because some branches save and restore it). -/
structure MSt where
  /-- `matches` of the source (renamed: `matches` is reserved in Lean). -/
  ms : List Str
  vars : Vars
  hasoverride : Bool

/-- The empty initial match state (`Match` allocates empty outputs). -/
def MSt.init : MSt := { ms := [], vars := [], hasoverride := false }

/-- `addMatch` of varouter.go.  Returns `added` and the updated state. -/
def addMatch (cur : Element) (st : MSt) : Bool × MSt :=
  if cur.isoverride then
    -- overwrite slot 0 and truncate, or append to the empty list: both [t]
    if st.ms.length > 0 then
      (false, { st with hasoverride := true, ms := [cur.template] })
    else
      (false, { st with hasoverride := true, ms := st.ms ++ [cur.template] })
  else if st.hasoverride ∧ ¬cur.isoverride then
    (false, st)
  else
    (if ¬cur.isPfx then true else false,
     { st with ms := st.ms ++ [cur.template] })

/-- `maybeAddMatch` of varouter.go. -/
def maybeAddMatch (L : Nat) (cur : Element) (cursor : Nat) (st : MSt) : Bool × MSt :=
  if cur.isPfx then (false, st)
  else if cur.template = [] then (false, st)
  else if cursor < L then (false, st)
  else addMatch cur st

/-- `matchWildcard` of varouter.go, transcribed with explicit fuel for the
backtracking loop (the Go loop terminates; the fuel below is generous
enough that the default branch is unreachable).  `st`/`sw` are the saved
backtrack positions; `st` starts at `-1` as in the source. -/
def matchWildcardLoop (vr : Varouter) (text wc : Str) (lt lw : Nat)
    (it iw : Nat) (stv : Int) (sw : Nat) : Nat → Bool
  | 0 => false
  | fuel + 1 =>
    if it < lt ∧ iw < lw then
      if getByte wc iw = vr.wildcardmany then
        let iw' := iw + 1
        if iw' ≥ lw then true
        else matchWildcardLoop vr text wc lt lw it iw' (Int.ofNat it) iw' fuel
      else
        if getByte wc iw = vr.wildcardone ∨ getByte text it ≠ getByte wc iw then
          matchWildcardLoop vr text wc lt lw (it + 1) (iw + 1) stv sw fuel
        else
          matchWildcardLoop vr text wc lt lw stv.toNat sw (stv + 1) sw fuel
    else
      -- trailing-star skip and final check
      ((wc.drop iw).dropWhile (fun c => c = vr.wildcardmany)).length = 0

/-- First loop of `matchWildcard` (advance until a `wildcardmany` byte or a
mismatch), then hand over to the backtracking loop with `st = -1, sw = 0`. -/
def phase1Impl (vr : Varouter) (text wc : Str) (lt lw : Nat) (it iw : Nat) : Nat → Bool
  | 0 => false
  | fuel + 1 =>
    if it < lt ∧ iw < lw then
      if getByte wc iw = vr.wildcardmany then
        matchWildcardLoop vr text wc lt lw it iw (-1) 0 ((lt + 2) * (lt + lw + 2))
      else if getByte wc iw ≠ vr.wildcardone ∧ getByte text it ≠ getByte wc iw then
        false
      else phase1Impl vr text wc lt lw (it + 1) (iw + 1) fuel
    else
      matchWildcardLoop vr text wc lt lw it iw (-1) 0 ((lt + 2) * (lt + lw + 2))

/-- `matchWildcard` of varouter.go (`text`, `wildcard` arguments). -/
def matchWildcard (vr : Varouter) (text wc : Str) : Bool :=
  let lt := text.length
  let lw := wc.length
  if lt = 0 ∨ lw = 0 then false
  else phase1Impl vr text wc lt lw 0 0 (lt + 1)

mutual
/-- `nextLevel` of varouter.go, with the scanning loop unrolled: `marker`
is the current level start, `cursor` scans for the next separator.  `f` is
recursion fuel consumed at each `nextLevel` entry; every entry strictly
increases `marker`, so the initial fuel `length + 3` is never exhausted. -/
def nextAux (vr : Varouter) (P : Str) (f : Nat) (cur : Element) (marker cursor : Nat)
    (st : MSt) : MSt :=
  if _h : cursor < P.length then
    if getByte P cursor ≠ vr.separator then
      nextAux vr P f cur marker (cursor + 1) st
    else
      match matchLevel vr P f cur cursor marker st with
      | (true, _, st1) => st1
      | (false, cur1, st1) => nextAux vr P f cur1 cursor (cursor + 1) st1
  else
    (matchLevel vr P f cur cursor marker st).2.2
  termination_by (f, P.length + 2 - cursor, 2, 0)

/-- `matchLevel` of varouter.go.  Returns `(stop, current, state)`; the
returned `current` matters because the variable branch leaves `state.current`
pointing at the variable child when it returns *continue*. -/
def matchLevel (vr : Varouter) (P : Str) (f : Nat) (cur : Element) (cursor marker : Nat)
    (st : MSt) : Bool × Element × MSt :=
  match f with
  | 0 => (true, cur, st)
  | g + 1 =>
    if marker > P.length then (true, cur, st)
    else
      let name := if cursor ≥ P.length then P.drop marker else substr P marker cursor
      if name = [] then (false, cur, st)
      else if cur.hasvariable ≠ [] then
        let st1 := { st with
          vars := varsSet st.vars (cur.hasvariable.drop 2) (substr P (marker + 1) cursor) }
        -- Go dereferences the variable child unconditionally; a missing child
        -- (impossible in trees built by Register) is modelled as newElement.
        let cur1 := (cur.subs.lookup cur.hasvariable).getD newElement
        let r := if cur1.isPfx then addMatch cur1 st1
                 else maybeAddMatch P.length cur1 cursor st1
        if r.1 then (true, cur1, r.2)
        else
          let st3 := nextAux vr P g cur1 (cursor + name.length) (cursor + name.length + 1) r.2
          (false, cur1, st3)
      else
        let st4 := if cur.haswildcards ∨ cur.hasPfxs then
                     scanSubs vr P (g + 1) name cursor cur.subs st
                   else st
        match cur.subs.lookup name with
        | some sub =>
            let r5 := maybeAddMatch P.length sub cursor st4
            if r5.1 then (true, sub, r5.2)
            else (true, sub, nextAux vr P g sub cursor (cursor + 1) r5.2)
        | none => (true, cur, st4)
  termination_by (f, P.length + 2 - cursor, 1, 0)

/-- The sub-scanning loop of `matchLevel` (wildcard and prefix children);
`state.current` is saved and restored around each recursion, so only the
match state threads through.  Callers always pass `f ≥ 1`. -/
def scanSubs (vr : Varouter) (P : Str) (f : Nat) (name : Str) (cursor : Nat)
    (s : Subs) (st : MSt) : MSt :=
  match f, s with
  | _, .nil => st
  | 0, _ => st
  | g + 1, .cons subname subelem rest =>
      let st1 :=
        if subelem.iswildcard ∧ matchWildcard vr name subname then
          let sta := (maybeAddMatch P.length subelem cursor st).2
          nextAux vr P g subelem cursor (cursor + 1) sta
        else st
      let st2 :=
        if subelem.isPfx ∧ name.length ≥ subname.length ∧
            name.take subname.length = subname then
          let stb := (addMatch subelem st1).2
          nextAux vr P g subelem cursor (cursor + 1) stb
        else st1
      scanSubs vr P (g + 1) name cursor rest st2
  termination_by (f, P.length + 2 - cursor, 0, sizeOf s)
end

/-- `match` of varouter.go: run the traversal from the root and return the
full final state (fuel `length + 3`; see `nextAux`). -/
def matchImpl (vr : Varouter) (P : Str) : MSt :=
  if P.length < 1 then MSt.init
  else nextAux vr P (P.length + 3) vr.root 0 1 MSt.init

/-- `Match` of varouter.go: matched templates, variable bindings, and
whether anything matched. -/
def Match (vr : Varouter) (P : Str) : List Str × Vars × Bool :=
  let st := matchImpl vr P
  (st.ms, st.vars, st.ms.length > 0)

/-! ## Reference glob semantics (for C3) -/

/-- Modelled from the spec: reference glob matching of §4.1 — `w1` matches
exactly one byte, `wn` matches a possibly empty run of bytes, any other
pattern byte matches only itself. -/
def globMatches (w1 wn : Char) : Str → Str → Bool
  | [], [] => true
  | [], c :: p => if c = wn then globMatches w1 wn [] p else false
  | _ :: _, [] => false
  | a :: t, c :: p =>
      if c = wn then globMatches w1 wn (a :: t) p || globMatches w1 wn t (c :: p)
      else (c = w1 ∨ a = c) && globMatches w1 wn t p
termination_by t p => (t.length, p.length)

/-- Modelled from the spec: `glob_match` of §4.1, which "fails immediately
if either side is empty". -/
def globSpec (w1 wn : Char) (t p : Str) : Bool :=
  if t.isEmpty ∨ p.isEmpty then false else globMatches w1 wn t p

/-! ## Concrete routers used by individual claims -/

/-- Router with `"/a/:v"` registered (claim C6). -/
def vr6 : Varouter := (Register New (str "/a/:v")).2

/-- Router with `"/a/:v"` registered (claim C10). -/
def vr10 : Varouter := (Register New (str "/a/:v")).2

/-- Router with `"/a/b"` registered (claim C2). -/
def vr2 : Varouter := (Register New (str "/a/b")).2

/-- Router with `"!/a/+"` then `"!/a/b"` registered (claim C5). -/
def vr5 : Varouter := (Register (Register New (str "!/a/+")).2 (str "!/a/b")).2

/-- Router with `"/x/+"` registered (claim C7). -/
def vr7 : Varouter := (Register New (str "/x/+")).2

/-! ## Concrete claim theorems -/

/-- Claim C1, counterexample: the claim states that a failing `Register`
leaves the tree and `NumTemplates` unchanged; registering `"/a/:"` on a
fresh router fails (empty variable name) yet `NumTemplates` changes from 0
to 1 (the intermediate node `"/a"` was created). -/
theorem C1_counterexample :
    (Register New (str "/a/:")).1 = some Err.emptyVariableName ∧
    NumTemplates New = 0 ∧ NumTemplates (Register New (str "/a/:")).2 = 1 := by
  refine ⟨?_, rfl, ?_⟩ <;>
  simp [Register, scanPfx, regAux, matchOrInsert, MOIOut.countd, mkChild, hasWildcards,
    validateVariableName, Subs.lookup, Subs.push, Subs.set, Subs.isNil, Element.subs,
    Element.template, Element.hasvariable, Element.isPfx, Element.isoverride,
    Element.iswildcard, Element.hasPfxs, Element.haswildcards, Element.setSubs,
    Element.setTemplate, Element.setHasvariable, Element.setIsoverride, Element.markHasPfxs,
    Element.markHaswildcards, newElement, New, NewVarouter, NumTemplates, getByte, substr, str]

/-- Claim C2, counterexample: the claim states that registering `"/a"`
after `"/a/b"` succeeds because the node `"/a"` carries an empty template;
in the code it fails with the duplicate-template error (`Register` rejects
any reuse of an existing node for the final element). -/
theorem C2_counterexample :
    (Register New (str "/a/b")).1 = none ∧
    (Register vr2 (str "/a")).1 = some Err.duplicateTemplate := by
  constructor <;>
  simp [vr2, Register, scanPfx, regAux, matchOrInsert, MOIOut.countd, mkChild, hasWildcards,
    validateVariableName, Subs.lookup, Subs.push, Subs.set, Subs.isNil, Element.subs,
    Element.template, Element.hasvariable, Element.isPfx, Element.isoverride,
    Element.iswildcard, Element.hasPfxs, Element.haswildcards, Element.setSubs,
    Element.setTemplate, Element.setHasvariable, Element.setIsoverride, Element.markHasPfxs,
    Element.markHaswildcards, newElement, New, NewVarouter, getByte, substr, str]

/-- Claim C3: `matchWildcard` is claimed to agree with the reference glob
semantics; it does not.  For text `"/homo"` and pattern `"/h*e"` the
reference semantics requires the final byte `e`, so the match is false, but
the code returns true: its backtracking loop advances on a byte mismatch
and backtracks on a byte match (the comparison is inverted), and it accepts
leftover text once the pattern is exhausted. -/
theorem C3_theorem :
    matchWildcard New (str "/homo") (str "/h*e") = true ∧
    globSpec '?' '*' (str "/homo") (str "/h*e") = false ∧
    matchWildcard New (str "ab") (str "a") = true ∧
    globSpec '?' '*' (str "ab") (str "a") = false := by
  refine ⟨?_, ?_, ?_, ?_⟩ <;>
  simp [matchWildcard, phase1Impl, matchWildcardLoop, globSpec, globMatches, New,
    NewVarouter, getByte, str]

/-- Claim C5, counterexample: with `"!/a/+"` and `"!/a/b"` registered, the
traversal of `"/a/b"` encounters the prefix override `"!/a/+"` first (the
sub scan precedes the exact lookup, and the scan state right after that
level shows it as the sole match), yet `Match` returns `"!/a/b"` — the last
override encountered, not the first. -/
theorem C5_counterexample :
    (scanSubs vr5 (str "/a/b") 6 (str "/b") 4
        ((vr5.root.subs.lookup (str "/a")).getD newElement).subs MSt.init).ms
      = [str "!/a/+"] ∧
    (Match vr5 (str "/a/b")).1 = [str "!/a/b"] := by
  constructor <;>
  simp [vr5, Match, matchImpl, nextAux, matchLevel, scanSubs, addMatch, maybeAddMatch,
    varsSet, MSt.init, matchWildcard, phase1Impl, matchWildcardLoop, Register, scanPfx,
    regAux, matchOrInsert, MOIOut.countd, mkChild, hasWildcards, validateVariableName,
    Subs.lookup, Subs.push, Subs.set, Subs.isNil, Element.subs, Element.template,
    Element.hasvariable, Element.isPfx, Element.isoverride, Element.iswildcard,
    Element.hasPfxs, Element.haswildcards, Element.setSubs, Element.setTemplate,
    Element.setHasvariable, Element.setIsoverride, Element.markHasPfxs,
    Element.markHaswildcards, newElement, New, NewVarouter, getByte, substr, str]

/-- Claim C5 (amended): when several overrides match, the LAST override
encountered wins — every override recorded by `addMatch` replaces the
entire match list with itself, regardless of what was there before. -/
theorem C5_theorem (cur : Element) (st : MSt) (hov : cur.isoverride = true) :
    (addMatch cur st).2.ms = [cur.template] := by
  unfold addMatch
  rw [hov]
  cases hms : st.ms <;> simp

/-- Witness for C5: the override terminal of `"!/a/b"` in `vr5`, applied to
a state already holding the earlier override `"!/a/+"`. -/
theorem C5_witness :
    (Element.mk .nil (str "!/a/b") [] false true false false false).isoverride = true ∧
    (addMatch (Element.mk .nil (str "!/a/b") [] false true false false false)
        { ms := [str "!/a/+"], vars := [], hasoverride := true }).2.ms = [str "!/a/b"] :=
  ⟨rfl, C5_theorem (Element.mk .nil (str "!/a/b") [] false true false false false)
    { ms := [str "!/a/+"], vars := [], hasoverride := true } rfl⟩

/-- Claim C6: with `"/a/:v"` registered, registering `"/a/b"` or `"/a/:w"`
fails with the variable-conflict error ("element registration on a level
with a variable"), and the router — tree and count — is unchanged. -/
theorem C6_theorem :
    (Register New (str "/a/:v")).1 = none ∧
    (Register vr6 (str "/a/b")).1 = some Err.levelHasVariable ∧
    (Register vr6 (str "/a/b")).2 = vr6 ∧
    (Register vr6 (str "/a/:w")).1 = some Err.levelHasVariable ∧
    (Register vr6 (str "/a/:w")).2 = vr6 := by
  refine ⟨?_, ?_, ?_, ?_, ?_⟩ <;>
  simp [vr6, Register, scanPfx, regAux, matchOrInsert, MOIOut.countd, mkChild, hasWildcards,
    validateVariableName, Subs.lookup, Subs.push, Subs.set, Subs.isNil, Element.subs,
    Element.template, Element.hasvariable, Element.isPfx, Element.isoverride,
    Element.iswildcard, Element.hasPfxs, Element.haswildcards, Element.setSubs,
    Element.setTemplate, Element.setHasvariable, Element.setIsoverride, Element.markHasPfxs,
    Element.markHaswildcards, newElement, New, NewVarouter, getByte, substr, str]

/-- Claim C7, counterexample: the claim quantifies over every path that
starts with the byte string `"/x"` and contains at least one more element;
`"/xy/z"` starts with those two bytes and has a second element, but matches
nothing — `"/x/+"` is not included. -/
theorem C7_counterexample :
    (Register New (str "/x/+")).1 = none ∧
    (str "/xy/z").take 2 = str "/x" ∧
    (Match vr7 (str "/xy/z")).1 = [] := by
  refine ⟨?_, rfl, ?_⟩ <;>
  simp [vr7, Match, matchImpl, nextAux, matchLevel, scanSubs, addMatch, maybeAddMatch,
    varsSet, MSt.init, matchWildcard, phase1Impl, matchWildcardLoop, Register, scanPfx,
    regAux, matchOrInsert, MOIOut.countd, mkChild, hasWildcards, validateVariableName,
    Subs.lookup, Subs.push, Subs.set, Subs.isNil, Element.subs, Element.template,
    Element.hasvariable, Element.isPfx, Element.isoverride, Element.iswildcard,
    Element.hasPfxs, Element.haswildcards, Element.setSubs, Element.setTemplate,
    Element.setHasvariable, Element.setIsoverride, Element.markHasPfxs,
    Element.markHaswildcards, newElement, New, NewVarouter, getByte, substr, str]

/-- Claim C8: after registering
`"/home/users/:username/.config/:application/"`, matching
`"/home/users/vedran/.config/myapp/"` returns exactly that template, the
bindings `username = "vedran"`, `application = "myapp"`, and `matched`. -/
theorem C8_theorem :
    (Register New (str "/home/users/:username/.config/:application/")).1 = none ∧
    Match (Register New (str "/home/users/:username/.config/:application/")).2
        (str "/home/users/vedran/.config/myapp/") =
      ([str "/home/users/:username/.config/:application/"],
       [(str "username", str "vedran"), (str "application", str "myapp")], true) := by
  constructor <;>
  simp [Match, matchImpl, nextAux, matchLevel, scanSubs, addMatch, maybeAddMatch, varsSet,
    MSt.init, matchWildcard, phase1Impl, matchWildcardLoop, Register, scanPfx, regAux,
    matchOrInsert, MOIOut.countd, mkChild, hasWildcards, validateVariableName, Subs.lookup,
    Subs.push, Subs.set, Subs.isNil, Element.subs, Element.template, Element.hasvariable,
    Element.isPfx, Element.isoverride, Element.iswildcard, Element.hasPfxs,
    Element.haswildcards, Element.setSubs, Element.setTemplate, Element.setHasvariable,
    Element.setIsoverride, Element.markHasPfxs, Element.markHaswildcards, newElement, New,
    NewVarouter, getByte, substr, str]

/-- Claim C10: with `"/a/:v"` registered, matching `"/a/"` — whose element
at the variable level is just the separator — returns the template with
`matched = true` and binds the variable `v` to the empty string. -/
theorem C10_theorem :
    (Register New (str "/a/:v")).1 = none ∧
    Match vr10 (str "/a/") = ([str "/a/:v"], [(str "v", str "")], true) := by
  constructor <;>
  simp [vr10, Match, matchImpl, nextAux, matchLevel, scanSubs, addMatch, maybeAddMatch,
    varsSet, MSt.init, matchWildcard, phase1Impl, matchWildcardLoop, Register, scanPfx,
    regAux, matchOrInsert, MOIOut.countd, mkChild, hasWildcards, validateVariableName,
    Subs.lookup, Subs.push, Subs.set, Subs.isNil, Element.subs, Element.template,
    Element.hasvariable, Element.isPfx, Element.isoverride, Element.iswildcard,
    Element.hasPfxs, Element.haswildcards, Element.setSubs, Element.setTemplate,
    Element.setHasvariable, Element.setIsoverride, Element.markHasPfxs,
    Element.markHaswildcards, newElement, New, NewVarouter, getByte, substr, str]

/-! ## Override dominance (C4): the invariant machinery -/

/-- Membership of an element among the values of a sub map. -/
inductive MemS : Element → Subs → Prop
  | head (k : Str) (c : Element) (rest : Subs) : MemS c (.cons k c rest)
  | tail (k : Str) (v : Element) {c : Element} {rest : Subs} :
      MemS c rest → MemS c (.cons k v rest)

/-- `InTree x e`: node `x` occurs in the tree rooted at `e`. -/
inductive InTree : Element → Element → Prop
  | refl (e : Element) : InTree e e
  | push {x c e : Element} : MemS c e.subs → InTree x c → InTree x e

/-- Structural induction principle for `Subs` alone (the generic
`induction` tactic does not apply to one part of a mutual inductive). -/
theorem subsInd {motive : Subs → Prop} (hnil : motive .nil)
    (hcons : ∀ k v rest, motive rest → motive (.cons k v rest)) : ∀ s, motive s
  | .nil => hnil
  | .cons k v rest => hcons k v rest (subsInd hnil hcons rest)

mutual
/-- Mutual structural induction for `Element`. -/
theorem elemInd {mE : Element → Prop} {mS : Subs → Prop}
    (he : ∀ s t v p o w hp hw, mS s → mE (.mk s t v p o w hp hw))
    (hnil : mS .nil)
    (hcons : ∀ k v rest, mE v → mS rest → mS (.cons k v rest)) : ∀ e, mE e
  | .mk s t v p o w hp hw => he s t v p o w hp hw (subsInd2 he hnil hcons s)

/-- Mutual structural induction for `Subs`. -/
theorem subsInd2 {mE : Element → Prop} {mS : Subs → Prop}
    (he : ∀ s t v p o w hp hw, mS s → mE (.mk s t v p o w hp hw))
    (hnil : mS .nil)
    (hcons : ∀ k v rest, mE v → mS rest → mS (.cons k v rest)) : ∀ s, mS s
  | .nil => hnil
  | .cons k v rest => hcons k v rest (elemInd he hnil hcons v) (subsInd2 he hnil hcons rest)
end

theorem lookup_memS {k : Str} {v : Element} :
    ∀ {s : Subs}, s.lookup k = some v → MemS v s := by
  intro s
  induction s using subsInd with
  | hnil => intro h; simp [Subs.lookup] at h
  | hcons a b rest ih =>
      intro h
      rw [Subs.lookup] at h
      by_cases hak : a = k
      · rw [if_pos hak] at h
        cases h
        exact .head _ _ _
      · rw [if_neg hak] at h
        exact .tail _ _ (ih h)

theorem InTree.trans {y x e : Element} (hyx : InTree y x) (hxe : InTree x e) :
    InTree y e := by
  induction hxe with
  | refl => exact hyx
  | push hm _ ih => exact .push hm ih

theorem memS_inTree {c e : Element} (h : MemS c e.subs) : InTree c e :=
  .push h (.refl c)

theorem inTree_lookup {cur root v : Element} {k : Str} (h : InTree cur root)
    (hl : cur.subs.lookup k = some v) : InTree v root :=
  InTree.trans (memS_inTree (lookup_memS hl)) h

/-- State invariant: once an override matched, the match list is exactly
one template and it belongs to an override node of the tree. -/
def OkSt (R : Element) (st : MSt) : Prop :=
  st.hasoverride = true →
    ∃ n, InTree n R ∧ n.isoverride = true ∧ st.ms = [n.template]

/-- The `current` pointer is a node of the tree, or the stand-in
`newElement` for Go's nil dereference on malformed trees. -/
def OkCur (R : Element) (cur : Element) : Prop := InTree cur R ∨ cur = newElement

theorem newElement_isoverride : newElement.isoverride = false := rfl

theorem newElement_subs : newElement.subs = Subs.nil := rfl

theorem addMatch_okSt {R cur : Element} {st : MSt} (hc : OkCur R cur)
    (hs : OkSt R st) : OkSt R (addMatch cur st).2 := by
  by_cases hov : cur.isoverride = true
  · have hkey : (addMatch cur st).2.ms = [cur.template] ∧
        (addMatch cur st).2.hasoverride = true := by
      unfold addMatch
      rw [hov]
      cases h : st.ms <;> simp
    intro _
    rcases hc with hIn | hNew
    · exact ⟨cur, hIn, hov, hkey.1⟩
    · rw [hNew, newElement_isoverride] at hov
      exact absurd hov (by simp)
  · have hov2 : cur.isoverride = false := by simpa using hov
    by_cases hh : st.hasoverride = true
    · have heq : (addMatch cur st).2 = st := by
        unfold addMatch
        rw [hov2]
        simp [hh]
      rw [heq]
      exact hs
    · have hfho : (addMatch cur st).2.hasoverride = st.hasoverride := by
        unfold addMatch
        rw [hov2]
        simp [hh]
      intro habs
      rw [hfho] at habs
      exact absurd habs hh

theorem maybeAddMatch_okSt {R cur : Element} {st : MSt} (L cursor : Nat)
    (hc : OkCur R cur) (hs : OkSt R st) :
    OkSt R (maybeAddMatch L cur cursor st).2 := by
  unfold maybeAddMatch
  split_ifs <;> first | exact hs | exact addMatch_okSt hc hs

/-- The invariant holds through the whole traversal, at every fuel. -/
theorem matchInv (vr : Varouter) (P : Str) (R : Element) :
    ∀ f : Nat,
      (∀ s name cursor st, (∀ c, MemS c s → InTree c R) → OkSt R st →
        OkSt R (scanSubs vr P f name cursor s st)) ∧
      (∀ cur cursor marker st, OkCur R cur → OkSt R st →
        OkCur R (matchLevel vr P f cur cursor marker st).2.1 ∧
        OkSt R (matchLevel vr P f cur cursor marker st).2.2) ∧
      (∀ cur marker cursor st, OkCur R cur → OkSt R st →
        OkSt R (nextAux vr P f cur marker cursor st)) := by
  intro f
  induction f using Nat.strong_induction_on with
  | _ f IH =>
  have hscan : ∀ s name cursor st, (∀ c, MemS c s → InTree c R) → OkSt R st →
      OkSt R (scanSubs vr P f name cursor s st) := by
    intro s
    induction s using subsInd with
    | hnil =>
        intro name cursor st _ hst
        cases f <;> simpa [scanSubs] using hst
    | hcons subname subelem rest IHs =>
        intro name cursor st hmem hst
        match f, IH, IHs with
        | 0, _, _ => simpa [scanSubs] using hst
        | g + 1, IH, IHs =>
          have hsubCur : OkCur R subelem := Or.inl (hmem subelem (.head _ _ _))
          rw [scanSubs]
          have hA : ∀ st2 : MSt, OkSt R st2 →
              OkSt R (nextAux vr P g subelem cursor (cursor + 1) st2) :=
            fun st2 h2 => (IH g (by omega)).2.2 subelem cursor (cursor + 1) st2 hsubCur h2
          refine IHs name cursor _ (fun c hc => hmem c (.tail _ _ hc)) ?_
          split_ifs <;>
          first
            | exact hst
            | exact hA _ (addMatch_okSt hsubCur hst)
            | exact hA _ (maybeAddMatch_okSt _ _ hsubCur hst)
            | exact hA _ (addMatch_okSt hsubCur (hA _ (maybeAddMatch_okSt _ _ hsubCur hst)))
  have hml : ∀ cur cursor marker st, OkCur R cur → OkSt R st →
      OkCur R (matchLevel vr P f cur cursor marker st).2.1 ∧
      OkSt R (matchLevel vr P f cur cursor marker st).2.2 := by
    intro cur cursor marker st hc hs
    match f, IH, hscan with
    | 0, _, _ => simpa [matchLevel] using ⟨hc, hs⟩
    | g + 1, IH, hscan =>
      rw [matchLevel]
      by_cases hmk : marker > P.length
      · rw [if_pos hmk]
        exact ⟨hc, hs⟩
      rw [if_neg hmk]
      simp only []
      by_cases hX : (if cursor ≥ P.length then P.drop marker else substr P marker cursor) = []
      · simp only [if_pos hX]
        exact ⟨hc, hs⟩
      simp only [if_neg hX]
      by_cases hv : cur.hasvariable ≠ []
      · simp only [if_pos hv]
        have hc1 : OkCur R ((cur.subs.lookup cur.hasvariable).getD newElement) := by
          rcases hl : cur.subs.lookup cur.hasvariable with _ | v
          · right
            rfl
          · rcases hc with hIn | hNew
            · exact Or.inl (inTree_lookup hIn hl)
            · rw [hNew, newElement_subs] at hl
              simp [Subs.lookup] at hl
        generalize hst1g :
          ({ ms := st.ms,
             vars := varsSet st.vars (List.drop 2 cur.hasvariable) (substr P (marker + 1) cursor),
             hasoverride := st.hasoverride } : MSt) = st1
        have hs1 : OkSt R st1 := hst1g ▸ (hs : OkSt R _)
        generalize hc1g : (cur.subs.lookup cur.hasvariable).getD newElement = cur1
        rw [hc1g] at hc1
        generalize hrg : (if cur1.isPfx = true then addMatch cur1 st1
          else maybeAddMatch P.length cur1 cursor st1) = r
        have hr2 : OkSt R r.2 := by
          rw [← hrg]
          split_ifs
          · exact addMatch_okSt hc1 hs1
          · exact maybeAddMatch_okSt _ _ hc1 hs1
        by_cases hstop : r.1 = true
        · rw [if_pos hstop]
          exact ⟨hc1, hr2⟩
        · rw [if_neg hstop]
          exact ⟨hc1, (IH g (by omega)).2.2 _ _ _ _ hc1 hr2⟩
      · simp only [if_neg hv]
        have hchild : ∀ c, MemS c cur.subs → InTree c R := by
          intro c hcc
          rcases hc with hIn | hNew
          · exact InTree.trans (memS_inTree hcc) hIn
          · rw [hNew, newElement_subs] at hcc
            cases hcc
        generalize hst4g : (if cur.haswildcards = true ∨ cur.hasPfxs = true then
            scanSubs vr P (g + 1)
              (if cursor ≥ P.length then P.drop marker else substr P marker cursor)
              cursor cur.subs st
          else st) = st4
        have hst4 : OkSt R st4 := by
          rw [← hst4g]
          by_cases hflag : cur.haswildcards = true ∨ cur.hasPfxs = true
          · rw [if_pos hflag]
            exact hscan cur.subs _ cursor st hchild hs
          · rw [if_neg hflag]
            exact hs
        rcases hlk : cur.subs.lookup
            (if cursor ≥ P.length then P.drop marker else substr P marker cursor) with _ | sub
        · simp only [hlk]
          exact ⟨hc, hst4⟩
        · simp only [hlk]
          have hcsub : OkCur R sub := by
            rcases hc with hIn | hNew
            · exact Or.inl (inTree_lookup hIn hlk)
            · rw [hNew, newElement_subs] at hlk
              simp [Subs.lookup] at hlk
          generalize hr5g : maybeAddMatch P.length sub cursor st4 = r5
          have hr5 : OkSt R r5.2 := hr5g ▸ maybeAddMatch_okSt _ _ hcsub hst4
          by_cases h5 : r5.1 = true
          · rw [if_pos h5]
            exact ⟨hcsub, hr5⟩
          · rw [if_neg h5]
            exact ⟨hcsub, (IH g (by omega)).2.2 _ _ _ _ hcsub hr5⟩
  have hnext : ∀ gas cur marker cursor st, P.length ≤ cursor + gas → OkCur R cur →
      OkSt R st → OkSt R (nextAux vr P f cur marker cursor st) := by
    intro gas
    induction gas with
    | zero =>
        intro cur marker cursor st hle hc hs
        rw [nextAux, dif_neg (by omega)]
        exact (hml cur cursor marker st hc hs).2
    | succ gas IHg =>
        intro cur marker cursor st hle hc hs
        rw [nextAux]
        by_cases hcl : cursor < P.length
        · rw [dif_pos hcl]
          by_cases hsep : getByte P cursor ≠ vr.separator
          · rw [if_pos hsep]
            exact IHg cur marker (cursor + 1) st (by omega) hc hs
          · rw [if_neg hsep]
            rcases hr : matchLevel vr P f cur cursor marker st with ⟨b, cur1, st1⟩
            have hmm := hml cur cursor marker st hc hs
            rw [hr] at hmm
            cases b
            · simp only []
              exact IHg cur1 cursor (cursor + 1) st1 (by omega) hmm.1 hmm.2
            · simp only []
              exact hmm.2
        · rw [dif_neg hcl]
          exact (hml cur cursor marker st hc hs).2
  exact ⟨hscan, hml, fun cur marker cursor st hc hs =>
    hnext P.length cur marker cursor st (by omega) hc hs⟩

/-- Router with `"!/a"` registered (claim C4 witness). -/
def vr4 : Varouter := (Register New (str "!/a")).2

/-- Claim C4: override dominance.  For every router tree and path, if some
registered override template matches the path — the traversal records an
override match, i.e. the final `hasoverride` flag is set — then `Match`
returns exactly one template, and it is the template of an override node of
the tree; in particular no non-override template matched during the same
traversal appears in the result. -/
theorem C4_theorem (vr : Varouter) (P : Str)
    (h : (matchImpl vr P).hasoverride = true) :
    ∃ n, InTree n vr.root ∧ n.isoverride = true ∧ (Match vr P).1 = [n.template] := by
  have hok : OkSt vr.root (matchImpl vr P) := by
    unfold matchImpl
    split_ifs with hlen
    · intro habs
      simp [MSt.init] at habs
    · exact (matchInv vr P vr.root (P.length + 3)).2.2 vr.root 0 1 MSt.init
        (Or.inl (InTree.refl _)) (fun habs => by simp [MSt.init] at habs)
  rcases hok h with ⟨n, hin, hov, hms⟩
  exact ⟨n, hin, hov, hms⟩

/-- Witness for C4: the router with `"!/a"` registered and the path
`"/a"`, whose traversal sets `hasoverride`. -/
theorem C4_witness :
    (matchImpl vr4 (str "/a")).hasoverride = true ∧
    ∃ n, InTree n vr4.root ∧ n.isoverride = true ∧
      (Match vr4 (str "/a")).1 = [n.template] :=
  ⟨by
    simp [vr4, Match, matchImpl, nextAux, matchLevel, scanSubs, addMatch, maybeAddMatch,
      varsSet, MSt.init, Register, scanPfx, regAux, matchOrInsert, MOIOut.countd, mkChild,
      hasWildcards, validateVariableName, Subs.lookup, Subs.push, Subs.set, Subs.isNil,
      Element.subs, Element.template, Element.hasvariable, Element.isPfx, Element.isoverride,
      Element.iswildcard, Element.hasPfxs, Element.haswildcards, Element.setSubs,
      Element.setTemplate, Element.setHasvariable, Element.setIsoverride, Element.markHasPfxs,
      Element.markHaswildcards, newElement, New, NewVarouter, getByte, substr, str],
   C4_theorem vr4 (str "/a") (by
    simp [vr4, Match, matchImpl, nextAux, matchLevel, scanSubs, addMatch, maybeAddMatch,
      varsSet, MSt.init, Register, scanPfx, regAux, matchOrInsert, MOIOut.countd, mkChild,
      hasWildcards, validateVariableName, Subs.lookup, Subs.push, Subs.set, Subs.isNil,
      Element.subs, Element.template, Element.hasvariable, Element.isPfx, Element.isoverride,
      Element.iswildcard, Element.hasPfxs, Element.haswildcards, Element.setSubs,
      Element.setTemplate, Element.setHasvariable, Element.setIsoverride, Element.markHasPfxs,
      Element.markHaswildcards, newElement, New, NewVarouter, getByte, substr, str])⟩

/-! ## Enumeration bookkeeping (for C1, C2, C9) -/

/-- What one sub entry contributes to `DefinedTemplates`: its own template
when non-empty, followed by all templates below it. -/
def contrib (v : Element) : List Str :=
  (if v.template ≠ [] then [v.template] else []) ++ printElement v []

theorem printSubs_append : ∀ s : Subs, ∀ a, printSubs s a = a ++ printSubs s [] := by
  refine @subsInd2 (fun e => ∀ a, printElement e a = a ++ printElement e []) _
    ?_ ?_ ?_
  · intro su t v p o w hp hw ihs a
    simp only [printElement]
    exact ihs a
  · intro a
    simp [printSubs]
  · intro k v rest ihv ihs a
    simp only [printSubs]
    rw [ihs, ihv]
    conv_rhs => rw [ihs, ihv]
    by_cases ht : v.template ≠ [] <;> simp [ht]

theorem printElement_append (e : Element) (a : List Str) :
    printElement e a = a ++ printElement e [] := by
  cases e with
  | mk s t v p o w hp hw =>
      simp only [printElement]
      exact printSubs_append s a

theorem printSubs_cons (k : Str) (v : Element) (rest : Subs) :
    printSubs (.cons k v rest) [] = contrib v ++ printSubs rest [] := by
  simp only [printSubs, contrib]
  rw [printSubs_append, printElement_append]
  by_cases ht : v.template ≠ [] <;> simp [ht]

theorem contrib_setSubs (e : Element) (s : Subs) :
    contrib (e.setSubs s) =
      (if e.template ≠ [] then [e.template] else []) ++ printSubs s [] := by
  cases e with
  | mk s0 t v p o w hp hw => simp [contrib, Element.setSubs, Element.template, printElement]

theorem printElement_eq_subs (e : Element) : printElement e [] = printSubs e.subs [] := by
  cases e with
  | mk s t v p o w hp hw => simp [printElement, Element.subs]

theorem contrib_eq (e : Element) :
    contrib e = (if e.template ≠ [] then [e.template] else []) ++ printSubs e.subs [] := by
  rw [contrib, printElement_eq_subs]

theorem markHasPfxs_fields (e : Element) :
    (e.markHasPfxs).subs = e.subs ∧ (e.markHasPfxs).template = e.template ∧
    (e.markHasPfxs).hasvariable = e.hasvariable := by
  cases e with
  | mk s t v p o w hp hw =>
      simp [Element.markHasPfxs, Element.subs, Element.template, Element.hasvariable]

theorem markHaswildcards_fields (e : Element) :
    (e.markHaswildcards).subs = e.subs ∧ (e.markHaswildcards).template = e.template ∧
    (e.markHaswildcards).hasvariable = e.hasvariable := by
  cases e with
  | mk s t v p o w hp hw =>
      simp [Element.markHaswildcards, Element.subs, Element.template, Element.hasvariable]

theorem setHasvariable_fields (e : Element) (n : Str) :
    (e.setHasvariable n).subs = e.subs ∧ (e.setHasvariable n).template = e.template := by
  cases e with
  | mk s t v p o w hp hw =>
      simp [Element.setHasvariable, Element.subs, Element.template]

theorem contrib_mark (e : Element) :
    contrib (e.markHasPfxs) = contrib e ∧ contrib (e.markHaswildcards) = contrib e ∧
    ∀ n, contrib (e.setHasvariable n) = contrib e := by
  refine ⟨?_, ?_, ?_⟩ <;> intros <;>
    simp [contrib_eq, markHasPfxs_fields, markHaswildcards_fields, setHasvariable_fields]

theorem contrib_mkChild (f p o w : Bool) : contrib (mkChild f p o w) = [] := by
  simp [contrib, mkChild, Element.template, printElement, printSubs]

/-- An update of an existing key replaces exactly that entry's contribution
in the enumeration, leaving a common prefix and suffix. -/
theorem set_decomp : ∀ (s : Subs) (k : Str) (v v2 : Element), s.lookup k = some v →
    ∃ pre post, printSubs s [] = pre ++ contrib v ++ post ∧
      printSubs (s.set k v2) [] = pre ++ contrib v2 ++ post := by
  intro s
  induction s using subsInd with
  | hnil => intro k v v2 h; simp [Subs.lookup] at h
  | hcons a b rest ih =>
      intro k v v2 h
      rw [Subs.lookup] at h
      by_cases hak : a = k
      · rw [if_pos hak] at h
        cases h
        refine ⟨[], printSubs rest [], ?_, ?_⟩
        · simp [printSubs_cons]
        · rw [Subs.set, if_pos hak]
          simp [printSubs_cons]
      · rw [if_neg hak] at h
        obtain ⟨pre, post, h1, h2⟩ := ih k v v2 h
        refine ⟨contrib b ++ pre, post, ?_, ?_⟩
        · rw [printSubs_cons, h1]
          simp [List.append_assoc]
        · rw [Subs.set, if_neg hak, printSubs_cons, h2]
          simp [List.append_assoc]

theorem printSubs_push (k : Str) (v : Element) : ∀ s : Subs,
    printSubs (s.push k v) [] = printSubs s [] ++ contrib v := by
  intro s
  induction s using subsInd with
  | hnil =>
      rw [Subs.push, printSubs_cons]
      simp [printSubs]
  | hcons a b rest ih =>
      rw [Subs.push, printSubs_cons, printSubs_cons, ih]
      simp [List.append_assoc]

theorem lookup_push_self (k : Str) (v : Element) : ∀ s : Subs,
    s.lookup k = none → (s.push k v).lookup k = some v := by
  intro s
  induction s using subsInd with
  | hnil => intro _; simp [Subs.push, Subs.lookup]
  | hcons a b rest ih =>
      intro h
      rw [Subs.lookup] at h
      by_cases hak : a = k
      · rw [if_pos hak] at h
        cases h
      · rw [if_neg hak] at h
        rw [Subs.push, Subs.lookup, if_neg hak]
        exact ih h

theorem lookup_push_other (k k2 : Str) (v : Element) (hne : k2 ≠ k) : ∀ s : Subs,
    (s.push k v).lookup k2 = s.lookup k2 := by
  intro s
  induction s using subsInd with
  | hnil =>
      simp only [Subs.push, Subs.lookup]
      rw [if_neg fun h => hne h.symm]
  | hcons a b rest ih =>
      rw [Subs.push, Subs.lookup, Subs.lookup]
      by_cases hak : a = k2
      · simp [if_pos hak]
      · rw [if_neg hak, if_neg hak]
        exact ih

theorem lookup_set_self (k : Str) (v2 : Element) : ∀ s : Subs, ∀ v,
    s.lookup k = some v → (s.set k v2).lookup k = some v2 := by
  intro s
  induction s using subsInd with
  | hnil => intro v h; simp [Subs.lookup] at h
  | hcons a b rest ih =>
      intro v h
      rw [Subs.lookup] at h
      by_cases hak : a = k
      · rw [Subs.set, if_pos hak, Subs.lookup, if_pos rfl]
      · rw [if_neg hak] at h
        rw [Subs.set, if_neg hak, Subs.lookup, if_neg hak]
        exact ih v h

theorem lookup_set_other (k k2 : Str) (v2 : Element) (hne : k2 ≠ k) : ∀ s : Subs,
    (s.set k v2).lookup k2 = s.lookup k2 := by
  intro s
  induction s using subsInd with
  | hnil => simp [Subs.set, Subs.lookup]
  | hcons a b rest ih =>
      by_cases hak : a = k
      · subst hak
        rw [Subs.set, if_pos rfl, Subs.lookup, Subs.lookup,
          if_neg fun h => hne h.symm, if_neg fun h => hne h.symm]
      · rw [Subs.set, if_neg hak, Subs.lookup, Subs.lookup]
        by_cases hak2 : a = k2
        · rw [if_pos hak2, if_pos hak2]
        · rw [if_neg hak2, if_neg hak2]
          exact ih

/-- The element name as keyed by `matchOrInsert`: the trailing prefix byte
stripped. -/
def stripPfx (vr : Varouter) (name0 : Str) : Str :=
  let pfx : Bool := getByte name0 (name0.length - 1) = vr.pfxc
  if pfx then name0.dropLast else name0

theorem mkChild_template (f p o w : Bool) : (mkChild f p o w).template = [] := rfl

theorem mkChild_subs (f p o w : Bool) : (mkChild f p o w).subs = Subs.nil := rfl

theorem markHasPfxs_subs (e : Element) : (e.markHasPfxs).subs = e.subs := by
  cases e with | mk s t v p o w hp hw => rfl

theorem markHasPfxs_template (e : Element) : (e.markHasPfxs).template = e.template := by
  cases e with | mk s t v p o w hp hw => rfl

theorem markHasPfxs_hasvariable (e : Element) :
    (e.markHasPfxs).hasvariable = e.hasvariable := by
  cases e with | mk s t v p o w hp hw => rfl

theorem markHaswildcards_subs (e : Element) : (e.markHaswildcards).subs = e.subs := by
  cases e with | mk s t v p o w hp hw => rfl

theorem markHaswildcards_template (e : Element) :
    (e.markHaswildcards).template = e.template := by
  cases e with | mk s t v p o w hp hw => rfl

theorem markHaswildcards_hasvariable (e : Element) :
    (e.markHaswildcards).hasvariable = e.hasvariable := by
  cases e with | mk s t v p o w hp hw => rfl

theorem setHasvariable_subs (e : Element) (n : Str) :
    (e.setHasvariable n).subs = e.subs := by
  cases e with | mk s t v p o w hp hw => rfl

theorem setHasvariable_template (e : Element) (n : Str) :
    (e.setHasvariable n).template = e.template := by
  cases e with | mk s t v p o w hp hw => rfl

theorem setSubs_subs (e : Element) (s : Subs) : (e.setSubs s).subs = s := by
  cases e with | mk s0 t v p o w hp hw => rfl

theorem setSubs_template (e : Element) (s : Subs) :
    (e.setSubs s).template = e.template := by
  cases e with | mk s0 t v p o w hp hw => rfl

theorem setTemplate_template (e : Element) (t : Str) :
    (e.setTemplate t).template = t := by
  cases e with | mk s t0 v p o w hp hw => rfl

theorem setTemplate_subs (e : Element) (t : Str) : (e.setTemplate t).subs = e.subs := by
  cases e with | mk s t0 v p o w hp hw => rfl

theorem setIsoverride_template (e : Element) :
    (e.setIsoverride).template = e.template := by
  cases e with | mk s t v p o w hp hw => rfl

theorem setIsoverride_subs (e : Element) : (e.setIsoverride).subs = e.subs := by
  cases e with | mk s t v p o w hp hw => rfl

theorem contrib_markP (e : Element) : contrib (e.markHasPfxs) = contrib e := by
  simp [contrib_eq, markHasPfxs_subs, markHasPfxs_template]

theorem contrib_markW (e : Element) : contrib (e.markHaswildcards) = contrib e := by
  simp [contrib_eq, markHaswildcards_subs, markHaswildcards_template]

theorem contrib_setHV (e : Element) (n : Str) : contrib (e.setHasvariable n) = contrib e := by
  simp [contrib_eq, setHasvariable_subs, setHasvariable_template]

theorem contrib_mkChild2 (f p o w : Bool) : contrib (mkChild f p o w) = [] := by
  simp [contrib_eq, mkChild_template, mkChild_subs, printSubs]

/-- Characterisation of one `matchOrInsert` step. -/
theorem matchOrInsert_spec (vr : Varouter) (e : Element) (name0 : Str) (final ov : Bool) :
    (matchOrInsert vr e name0 final ov).key = stripPfx vr name0 ∧
    (matchOrInsert vr e name0 final ov).parent.template = e.template ∧
    contrib (matchOrInsert vr e name0 final ov).parent = contrib e ∧
    ((matchOrInsert vr e name0 final ov).existing =
      (e.subs.lookup (stripPfx vr name0)).isSome) ∧
    ((matchOrInsert vr e name0 final ov).err = some Err.duplicateTemplate →
      (matchOrInsert vr e name0 final ov).existing = true ∧ final = true) ∧
    ((matchOrInsert vr e name0 final ov).existing = true →
      (matchOrInsert vr e name0 final ov).err = none ∨
      (matchOrInsert vr e name0 final ov).err = some Err.duplicateTemplate) ∧
    ((matchOrInsert vr e name0 final ov).err = none →
      ((matchOrInsert vr e name0 final ov).parent.subs.lookup
          (matchOrInsert vr e name0 final ov).key =
        some (matchOrInsert vr e name0 final ov).child) ∧
      ((matchOrInsert vr e name0 final ov).existing = true →
        (matchOrInsert vr e name0 final ov).parent = e ∧
        e.subs.lookup (matchOrInsert vr e name0 final ov).key =
          some (matchOrInsert vr e name0 final ov).child) ∧
      ((matchOrInsert vr e name0 final ov).existing = false →
        ∃ pfx w, (matchOrInsert vr e name0 final ov).child = mkChild final pfx ov w)) := by
  unfold matchOrInsert stripPfx
  simp only []
  generalize hpb : (decide (getByte name0 (List.length name0 - 1) = vr.pfxc)) = pb
  generalize hnm : (if pb = true then List.dropLast name0 else name0) = nm
  rcases hlk : e.subs.lookup nm with _ | elem
  · generalize hwb : hasWildcards vr nm = wb
    simp only [hlk, hwb]
    have hsubsE2 : (if wb = true then
        (if pb = true then e.markHasPfxs else e).markHaswildcards
        else if pb = true then e.markHasPfxs else e).subs = e.subs := by
      cases pb <;> cases wb <;>
        simp [markHasPfxs_subs, markHaswildcards_subs]
    have htplE2 : (if wb = true then
        (if pb = true then e.markHasPfxs else e).markHaswildcards
        else if pb = true then e.markHasPfxs else e).template = e.template := by
      cases pb <;> cases wb <;>
        simp [markHasPfxs_template, markHaswildcards_template]
    have hconE2 : contrib (if wb = true then
        (if pb = true then e.markHasPfxs else e).markHaswildcards
        else if pb = true then e.markHasPfxs else e) = contrib e := by
      cases pb <;> cases wb <;>
        simp [contrib_markP, contrib_markW]
    generalize hg2 : (if wb = true then
        (if pb = true then e.markHasPfxs else e).markHaswildcards
        else if pb = true then e.markHasPfxs else e) = e2
    rw [hg2] at hsubsE2 htplE2 hconE2
    by_cases hvv : e2.hasvariable ≠ []
    · simp only [if_pos hvv]
      exact ⟨trivial, htplE2, hconE2, by simp [hlk], by simp, by simp, by simp⟩
    · simp only [if_neg hvv]
      have hnew : ∀ child : Element, contrib child = [] →
          contrib ((e2.setHasvariable nm).setSubs
            ((e2.setHasvariable nm).subs.push nm child)) = contrib e ∧
          contrib (e2.setSubs (e2.subs.push nm child)) = contrib e := by
        intro child hchild
        constructor
        · rw [contrib_setSubs, printSubs_push, hchild, setHasvariable_subs,
            setHasvariable_template, hsubsE2, htplE2, contrib_eq]
          simp
        · rw [contrib_setSubs, printSubs_push, hchild, hsubsE2, htplE2, contrib_eq]
          simp
      by_cases hvar : nm.length > 1 ∧ getByte nm 1 = vr.varc
      · simp only [if_pos hvar]
        rcases hvn : validateVariableName vr nm with _ | er
        · simp only [hvn]
          by_cases hsn : e2.subs.isNil = false
          · simp only [if_pos hsn]
            exact ⟨trivial, htplE2, hconE2, by simp [hlk], by simp, by simp, by simp⟩
          · simp only [if_neg hsn]
            by_cases hww : wb = true
            · simp only [if_pos hww]
              exact ⟨trivial, htplE2, hconE2, by simp [hlk], by simp, by simp, by simp⟩
            · simp only [if_neg hww]
              refine ⟨trivial, ?_, ?_, by simp [hlk], by simp, by simp, ?_⟩
              · rw [setSubs_template, setHasvariable_template, htplE2]
              · exact ((hnew _ (contrib_mkChild2 _ _ _ _)).1)
              · refine fun _ => ⟨?_, by simp, fun _ => ⟨pb, wb, rfl⟩⟩
                rw [setSubs_subs]
                exact lookup_push_self _ _ _ (by rw [setHasvariable_subs, hsubsE2]; exact hlk)
        · simp only [hvn]
          have her : er = Err.emptyVariableName ∨ er = Err.invalidVariableName := by
            unfold validateVariableName at hvn
            split_ifs at hvn <;> simp_all
          refine ⟨trivial, htplE2, hconE2, by simp [hlk], ?_, by simp, by simp⟩
          rcases her with h | h <;> simp [h]
      · simp only [if_neg hvar]
        refine ⟨trivial, ?_, ?_, by simp [hlk], by simp, by simp, ?_⟩
        · rw [setSubs_template, htplE2]
        · exact ((hnew _ (contrib_mkChild2 _ _ _ _)).2)
        · refine fun _ => ⟨?_, by simp, fun _ => ⟨pb, wb, rfl⟩⟩
          rw [setSubs_subs]
          exact lookup_push_self _ _ _ (by rw [hsubsE2]; exact hlk)
  · simp only [hlk]
    by_cases hfin : final = true ∧ e.template ≠ []
    · simp only [if_pos hfin]
      exact ⟨trivial, trivial, trivial, by simp [hlk], by simp [hfin], by simp, by simp⟩
    · simp only [if_neg hfin]
      exact ⟨trivial, trivial, trivial, by simp [hlk], by simp, by simp,
        fun _ => ⟨by simp [hlk], fun _ => ⟨trivial, by simp [hlk]⟩, by simp⟩⟩

theorem contrib_terminal (child : Element) (tpl : Str) (htpl : tpl ≠ [])
    (hsubs : child.subs = Subs.nil) (ov : Bool) :
    contrib ((if ov then child.setIsoverride else child).setTemplate tpl) = [tpl] := by
  rw [contrib_eq, setTemplate_template, setTemplate_subs]
  by_cases hov : ov
  · rw [if_pos hov, setIsoverride_subs, hsubs]
    simp [htpl, printSubs]
  · rw [if_neg hov, hsubs]
    simp [htpl, printSubs]

/-- Count bookkeeping for the final element of the registration walk. -/
theorem regAux_final_count (vr : Varouter) (tpl : Str) (ov : Bool) (htpl : tpl ≠ [])
    (e : Element) (marker cursor : Nat) (hcl : ¬ cursor < tpl.length) :
    (regAux vr tpl e marker cursor ov).tree.template = e.template ∧
    ∀ t, (contrib (regAux vr tpl e marker cursor ov).tree).count t =
      (contrib e).count t +
      (if (regAux vr tpl e marker cursor ov).err = none ∧ t = tpl then 1 else 0) := by
  rw [regAux, dif_neg hcl]
  have hspec := matchOrInsert_spec vr e (substr tpl marker cursor) true ov
  generalize hm : matchOrInsert vr e (substr tpl marker cursor) true ov = m
  rw [hm] at hspec
  obtain ⟨hkey, htp, hcon, hex, hdup, hexe, hok⟩ := hspec
  rcases hme : m.err with _ | er
  · simp only [hme]
    obtain ⟨hlkp, hexq, hfresh⟩ := hok hme
    by_cases hexi : m.existing = true
    · simp only [hexi, if_pos rfl]
      refine ⟨by simpa [(hexq hexi).1] using htp, ?_⟩
      intro t
      simp [(hexq hexi).1, hcon]
    · have hexi2 : m.existing = false := by simpa using hexi
      simp only [hexi2]
      simp only [Bool.false_eq_true, if_false]
      obtain ⟨pfx, w, hch⟩ := hfresh hexi2
      obtain ⟨pre, post, hd1, hd2⟩ :=
        set_decomp m.parent.subs m.key m.child
          ((if ov then m.child.setIsoverride else m.child).setTemplate tpl) hlkp
      have hchc : contrib m.child = [] := by rw [hch]; exact contrib_mkChild2 _ _ _ _
      have hterm : contrib ((if ov then m.child.setIsoverride else m.child).setTemplate tpl)
          = [tpl] :=
        contrib_terminal m.child tpl htpl (by rw [hch]; exact mkChild_subs _ _ _ _) ov
      constructor
      · simpa [setSubs_template] using htp
      · intro t
        rw [contrib_setSubs, hd2, hterm, ← hcon, contrib_eq m.parent, hd1, hchc]
        by_cases ht : t = tpl <;>
          simp [List.count_append, ht, htp, List.count_cons, List.count_nil] <;> omega
  · simp only [hme]
    refine ⟨htp, ?_⟩
    intro t
    simp [hcon]

/-- Count bookkeeping for the whole registration walk: on failure the
enumerated templates are unchanged; on success exactly one occurrence of
the registered template is added. -/
theorem regAux_count (vr : Varouter) (tpl : Str) (ov : Bool) (htpl : tpl ≠ []) :
    ∀ gas e marker cursor, tpl.length ≤ cursor + gas →
      (regAux vr tpl e marker cursor ov).tree.template = e.template ∧
      ∀ t, (contrib (regAux vr tpl e marker cursor ov).tree).count t =
        (contrib e).count t +
        (if (regAux vr tpl e marker cursor ov).err = none ∧ t = tpl then 1 else 0) := by
  intro gas
  induction gas with
  | zero =>
      intro e marker cursor hle
      exact regAux_final_count vr tpl ov htpl e marker cursor (by omega)
  | succ gas IH =>
      intro e marker cursor hle
      by_cases hcl : cursor < tpl.length
      · rw [regAux, dif_pos hcl]
        by_cases hsep : getByte tpl cursor ≠ vr.separator
        · rw [if_pos hsep]
          exact IH e marker (cursor + 1) (by omega)
        · rw [if_neg hsep]
          have hspec := matchOrInsert_spec vr e (substr tpl marker cursor) false ov
          generalize hm : matchOrInsert vr e (substr tpl marker cursor) false ov = m
          rw [hm] at hspec
          obtain ⟨hkey, htp, hcon, hex, hdup, hexe, hok⟩ := hspec
          rcases hme : m.err with _ | er
          · simp only [hme]
            obtain ⟨hlkp, hexq, hfresh⟩ := hok hme
            obtain ⟨hrt, hrc⟩ := IH m.child cursor (cursor + 1) (by omega)
            obtain ⟨pre, post, hd1, hd2⟩ :=
              set_decomp m.parent.subs m.key m.child
                (regAux vr tpl m.child cursor (cursor + 1) ov).tree hlkp
            constructor
            · simpa [setSubs_template] using htp
            · intro t
              rw [contrib_setSubs, hd2, ← hcon, contrib_eq m.parent, hd1]
              have := hrc t
              simp only [List.count_append] at this ⊢
              omega
          · simp only [hme]
            exact ⟨htp, fun t => by simp [hcon]⟩
      · exact regAux_final_count vr tpl ov htpl e marker cursor hcl

/-- When `Register` fails, `DefinedTemplates` is unchanged as a multiset. -/
theorem Register_err_count (vr : Varouter) (tpl : Str) (er : Err)
    (h : (Register vr tpl).1 = some er) (t : Str) :
    (DefinedTemplates (Register vr tpl).2).count t = (DefinedTemplates vr).count t := by
  unfold Register at h ⊢
  by_cases h1 : tpl.length < 1
  · simp only [if_pos h1] at h ⊢
  · simp only [if_neg h1] at h ⊢
    by_cases h2 : scanPfx vr tpl 0 = true
    · simp only [if_pos h2] at h ⊢
    · simp only [if_neg h2] at h ⊢
      have htpl : tpl ≠ [] := by
        intro hh
        rw [hh] at h1
        simp at h1
      generalize hov : (decide (getByte tpl 0 = vr.override)) = ovb at h ⊢
      by_cases h3 : getByte tpl (if ovb = true then 1 else 0) ≠ vr.separator
      · simp only [if_pos h3] at h ⊢
      · simp only [if_neg h3] at h ⊢
        obtain ⟨htpre, hcnt⟩ := regAux_count vr tpl ovb htpl tpl.length vr.root
          (if ovb = true then 1 else 0) (if ovb = true then 2 else 1) (by omega)
        have h1t := hcnt t
        rw [h, if_neg (by simp : ¬(some er = none ∧ t = tpl)), contrib_eq, contrib_eq,
          htpre] at h1t
        simp only [List.count_append] at h1t
        simp only [DefinedTemplates]
        try simp only []
        rw [printElement_eq_subs, printElement_eq_subs]
        omega

/-- Claim C1 (amended): when `Register` fails, no template is added or
removed — `DefinedTemplates` is unchanged as a multiset — although interior
nodes may have been created (so `NumTemplates` may grow, see
`C1_counterexample`) and parent cache bits may be set. -/
theorem C1_theorem (vr : Varouter) (tpl : Str) (er : Err)
    (h : (Register vr tpl).1 = some er) (t : Str) :
    (DefinedTemplates (Register vr tpl).2).count t = (DefinedTemplates vr).count t :=
  Register_err_count vr tpl er h t

/-- Witness for C1 (amended): the failing registration of `"/a/:"` leaves
`DefinedTemplates` unchanged (counted at `"/a"`). -/
theorem C1_witness :
    (Register New (str "/a/:")).1 = some Err.emptyVariableName ∧
    (DefinedTemplates (Register New (str "/a/:")).2).count (str "/a") =
      (DefinedTemplates New).count (str "/a") :=
  ⟨by
    simp [Register, scanPfx, regAux, matchOrInsert, MOIOut.countd, mkChild, hasWildcards,
      validateVariableName, Subs.lookup, Subs.push, Subs.set, Subs.isNil, Element.subs,
      Element.template, Element.hasvariable, Element.isPfx, Element.isoverride,
      Element.iswildcard, Element.hasPfxs, Element.haswildcards, Element.setSubs,
      Element.setTemplate, Element.setHasvariable, Element.setIsoverride, Element.markHasPfxs,
      Element.markHaswildcards, newElement, New, NewVarouter, getByte, substr, str],
   C1_theorem New (str "/a/:") Err.emptyVariableName (by
    simp [Register, scanPfx, regAux, matchOrInsert, MOIOut.countd, mkChild, hasWildcards,
      validateVariableName, Subs.lookup, Subs.push, Subs.set, Subs.isNil, Element.subs,
      Element.template, Element.hasvariable, Element.isPfx, Element.isoverride,
      Element.iswildcard, Element.hasPfxs, Element.haswildcards, Element.setSubs,
      Element.setTemplate, Element.setHasvariable, Element.setIsoverride, Element.markHasPfxs,
      Element.markHaswildcards, newElement, New, NewVarouter, getByte, substr, str])
    (str "/a")⟩

/-! ## Duplicate characterisation (C2): the element chain of a template -/

/-- The element names of `template[marker..]`, split at separators exactly
as the `Register` walk does. -/
def elemsFrom (vr : Varouter) (tpl : Str) (marker cursor : Nat) : List Str :=
  if _h : cursor < tpl.length then
    if getByte tpl cursor ≠ vr.separator then elemsFrom vr tpl marker (cursor + 1)
    else substr tpl marker cursor :: elemsFrom vr tpl cursor (cursor + 1)
  else [substr tpl marker cursor]
termination_by tpl.length + 1 - cursor

/-- The element names of a whole template (after the optional override
marker), as walked by `Register`. -/
def tplElems (vr : Varouter) (tpl : Str) : List Str :=
  let ov : Bool := getByte tpl 0 = vr.override
  elemsFrom vr tpl (if ov then 1 else 0) (if ov then 2 else 1)

/-- Does the whole chain of element names already exist in the tree
(each element looked up under its prefix-stripped key)? -/
def chainExists (vr : Varouter) : Element → List Str → Bool
  | _, [] => true
  | e, n :: rest =>
      match e.subs.lookup (stripPfx vr n) with
      | some c => chainExists vr c rest
      | none => false

/-- The pre-walk validations of `Register`: non-empty, no misplaced prefix
byte, and a leading separator after the optional override byte. -/
def validShape (vr : Varouter) (tpl : Str) : Bool :=
  if tpl.length < 1 then false
  else if scanPfx vr tpl 0 then false
  else
    let ov : Bool := getByte tpl 0 = vr.override
    let marker := if ov then 1 else 0
    if getByte tpl marker ≠ vr.separator then false else true

/-- The walk over a chain of freshly created nodes never reports a
duplicate: every lookup in an empty sub map fails. -/
theorem regAux_fresh_no_dup (vr : Varouter) (tpl : Str) (ov : Bool) :
    ∀ gas e marker cursor, tpl.length ≤ cursor + gas → e.subs = Subs.nil →
      (regAux vr tpl e marker cursor ov).err ≠ some Err.duplicateTemplate := by
  intro gas
  have hfin : ∀ e marker cursor, ¬ cursor < tpl.length → (e : Element).subs = Subs.nil →
      (regAux vr tpl e marker cursor ov).err ≠ some Err.duplicateTemplate := by
    intro e marker cursor hcl hnil
    rw [regAux, dif_neg hcl]
    have hspec := matchOrInsert_spec vr e (substr tpl marker cursor) true ov
    generalize hm : matchOrInsert vr e (substr tpl marker cursor) true ov = m
    rw [hm] at hspec
    obtain ⟨hkey, htp, hcon, hex, hdup, hexe, hok⟩ := hspec
    have hexf : m.existing = false := by
      rw [hex, hnil]
      simp [Subs.lookup]
    rcases hme : m.err with _ | er
    · simp only [hme, hexf]
      simp
    · simp only [hme]
      intro hc
      cases hc
      exact absurd (hdup hme).1 (by rw [hexf]; simp)
  induction gas with
  | zero =>
      intro e marker cursor hle hnil
      exact hfin e marker cursor (by omega) hnil
  | succ gas IH =>
      intro e marker cursor hle hnil
      by_cases hcl : cursor < tpl.length
      · rw [regAux, dif_pos hcl]
        by_cases hsep : getByte tpl cursor ≠ vr.separator
        · rw [if_pos hsep]
          exact IH e marker (cursor + 1) (by omega) hnil
        · rw [if_neg hsep]
          have hspec := matchOrInsert_spec vr e (substr tpl marker cursor) false ov
          generalize hm : matchOrInsert vr e (substr tpl marker cursor) false ov = m
          rw [hm] at hspec
          obtain ⟨hkey, htp, hcon, hex, hdup, hexe, hok⟩ := hspec
          have hexf : m.existing = false := by
            rw [hex, hnil]
            simp [Subs.lookup]
          rcases hme : m.err with _ | er
          · simp only [hme]
            obtain ⟨hlkp, hexq, hfresh⟩ := hok hme
            obtain ⟨pfx, w, hch⟩ := hfresh hexf
            exact IH m.child cursor (cursor + 1) (by omega)
              (by rw [hch]; exact mkChild_subs _ _ _ _)
          · simp only [hme]
            intro hc
            cases hc
            exact absurd (hdup hme).1 (by rw [hexf]; simp)
      · exact hfin e marker cursor hcl hnil

/-- Duplicate characterisation of the registration walk: it reports a
duplicate exactly when every element of the template already exists as a
chain in the tree. -/
theorem regAux_dup_iff (vr : Varouter) (tpl : Str) (ov : Bool) :
    ∀ gas e marker cursor, tpl.length ≤ cursor + gas →
      ((regAux vr tpl e marker cursor ov).err = some Err.duplicateTemplate ↔
        chainExists vr e (elemsFrom vr tpl marker cursor) = true) := by
  intro gas
  have hfin : ∀ e marker cursor, ¬ cursor < tpl.length →
      ((regAux vr tpl e marker cursor ov).err = some Err.duplicateTemplate ↔
        chainExists vr e (elemsFrom vr tpl marker cursor) = true) := by
    intro e marker cursor hcl
    rw [regAux, dif_neg hcl, elemsFrom, dif_neg hcl]
    have hspec := matchOrInsert_spec vr e (substr tpl marker cursor) true ov
    generalize hm : matchOrInsert vr e (substr tpl marker cursor) true ov = m
    rw [hm] at hspec
    obtain ⟨hkey, htp, hcon, hex, hdup, hexe, hok⟩ := hspec
    rcases hlk : e.subs.lookup (stripPfx vr (substr tpl marker cursor)) with _ | c
    · simp only [chainExists, hlk]
      have hexf : m.existing = false := by rw [hex, hlk]; rfl
      rcases hme : m.err with _ | er
      · simp only [hme, hexf]
        simp
      · simp only [hme]
        constructor
        · intro hc
          cases hc
          exact absurd (hdup hme).1 (by rw [hexf]; simp)
        · intro hc
          cases hc
    · simp only [chainExists, hlk, chainExists]
      have hext : m.existing = true := by rw [hex, hlk]; rfl
      rcases hexe hext with hme | hme
      · simp [hme, hext]
      · simp [hme]
  induction gas with
  | zero =>
      intro e marker cursor hle
      exact hfin e marker cursor (by omega)
  | succ gas IH =>
      intro e marker cursor hle
      by_cases hcl : cursor < tpl.length
      · rw [regAux, dif_pos hcl, elemsFrom, dif_pos hcl]
        by_cases hsep : getByte tpl cursor ≠ vr.separator
        · rw [if_pos hsep, if_pos hsep]
          exact IH e marker (cursor + 1) (by omega)
        · rw [if_neg hsep, if_neg hsep]
          have hspec := matchOrInsert_spec vr e (substr tpl marker cursor) false ov
          generalize hm : matchOrInsert vr e (substr tpl marker cursor) false ov = m
          rw [hm] at hspec
          obtain ⟨hkey, htp, hcon, hex, hdup, hexe, hok⟩ := hspec
          rcases hlk : e.subs.lookup (stripPfx vr (substr tpl marker cursor)) with _ | c
          · simp only [chainExists, hlk]
            have hexf : m.existing = false := by rw [hex, hlk]; rfl
            rcases hme : m.err with _ | er
            · simp only [hme]
              obtain ⟨hlkp, hexq, hfresh⟩ := hok hme
              obtain ⟨pfx, w, hch⟩ := hfresh hexf
              have hnd := regAux_fresh_no_dup vr tpl ov (gas + 1) m.child cursor (cursor + 1)
                (by omega) (by rw [hch]; exact mkChild_subs _ _ _ _)
              constructor
              · intro hc
                exact absurd hc hnd
              · intro hc
                cases hc
            · simp only [hme]
              constructor
              · intro hc
                cases hc
                exact absurd (hdup hme).1 (by rw [hexf]; simp)
              · intro hc
                cases hc
          · have hext : m.existing = true := by rw [hex, hlk]; rfl
            rcases hexe hext with hme | hme
            · simp only [hme, chainExists, hlk]
              obtain ⟨hlkp, hexq, hfresh⟩ := hok hme
              have hceq : c = m.child := by
                have := (hexq hext).2
                rw [hkey] at this
                rw [hlk] at this
                exact (Option.some.injEq _ _).mp this
              rw [hceq]
              exact IH m.child cursor (cursor + 1) (by omega)
            · exact absurd (hdup hme).2 (by simp)
      · exact hfin e marker cursor hcl

/-- `Register` reports a duplicate exactly when the template passes the
pre-walk validations and its whole element chain already exists. -/
theorem Register_dup_iff (vr : Varouter) (tpl : Str) :
    (Register vr tpl).1 = some Err.duplicateTemplate ↔
    (validShape vr tpl = true ∧ chainExists vr vr.root (tplElems vr tpl) = true) := by
  unfold Register validShape tplElems
  by_cases h1 : tpl.length < 1
  · simp [h1]
  · simp only [if_neg h1]
    by_cases h2 : scanPfx vr tpl 0 = true
    · simp [h2]
    · simp only [if_neg h2]
      generalize hov : (decide (getByte tpl 0 = vr.override)) = ovb
      by_cases h3 : getByte tpl (if ovb = true then 1 else 0) ≠ vr.separator
      · simp [h3]
      · simp only [if_neg h3]
        have hiff := regAux_dup_iff vr tpl ovb tpl.length vr.root
          (if ovb = true then 1 else 0) (if ovb = true then 2 else 1) (by omega)
        simpa using hiff

/-- Claim C2 (amended): `Register(template)` fails with the
duplicate-template error exactly when the template passes the pre-walk
validations and every element of the template already exists as a chain in
the tree — whether or not the terminal node carries a non-empty template.
In particular `Register("/a/b")` then `Register("/a")` fails (see
`C2_counterexample`); when the final element's node is newly created,
registration succeeds and sets its template and override flag (the prefix
flag is set at creation). -/
theorem C2_theorem (vr : Varouter) (tpl : Str) :
    (Register vr tpl).1 = some Err.duplicateTemplate ↔
    (validShape vr tpl = true ∧ chainExists vr vr.root (tplElems vr tpl) = true) :=
  Register_dup_iff vr tpl

/-- Witness for C2 (amended): with `"/a/b"` registered, re-registering
`"/a/b"` satisfies the right-hand side of `C2_theorem` and therefore fails
with the duplicate error. -/
theorem C2_witness :
    validShape vr2 (str "/a/b") = true ∧
    chainExists vr2 vr2.root (tplElems vr2 (str "/a/b")) = true ∧
    (Register vr2 (str "/a/b")).1 = some Err.duplicateTemplate := by
  have hv : validShape vr2 (str "/a/b") = true ∧
      chainExists vr2 vr2.root (tplElems vr2 (str "/a/b")) = true := by
    constructor <;>
    simp [vr2, validShape, tplElems, elemsFrom, chainExists, stripPfx, Register, scanPfx,
      regAux, matchOrInsert, MOIOut.countd, mkChild, hasWildcards, validateVariableName,
      Subs.lookup, Subs.push, Subs.set, Subs.isNil, Element.subs, Element.template,
      Element.hasvariable, Element.isPfx, Element.isoverride, Element.iswildcard,
      Element.hasPfxs, Element.haswildcards, Element.setSubs, Element.setTemplate,
      Element.setHasvariable, Element.setIsoverride, Element.markHasPfxs,
      Element.markHaswildcards, newElement, New, NewVarouter, getByte, substr, str]
  exact ⟨hv.1, hv.2, (C2_theorem vr2 (str "/a/b")).mpr hv⟩

/-! ## Prefix monotonicity (C7) -/

/-- A node with no flags, no variable, and no children stops every level
without touching the state. -/
theorem matchLevel_deadEnd (vr : Varouter) (P : Str) (q : Element)
    (hv : q.hasvariable = []) (hw : q.haswildcards = false) (hp : q.hasPfxs = false)
    (hs : q.subs = Subs.nil) (f cursor marker : Nat) (st : MSt) :
    (matchLevel vr P f q cursor marker st).2.1 = q ∧
    (matchLevel vr P f q cursor marker st).2.2 = st := by
  match f with
  | 0 => simp [matchLevel]
  | g + 1 =>
    rw [matchLevel]
    by_cases hmk : marker > P.length
    · simp [hmk]
    simp only [if_neg hmk]
    by_cases hX : (if cursor ≥ P.length then P.drop marker else substr P marker cursor) = []
    · simp [hX]
    simp only [if_neg hX]
    rw [if_neg (show ¬ q.hasvariable ≠ [] by rw [hv]; simp)]
    rw [if_neg (show ¬ (q.haswildcards = true ∨ q.hasPfxs = true) by rw [hw, hp]; simp)]
    rw [hs]
    simp [Subs.lookup]

/-- Running the outer loop from a dead-end node leaves the state unchanged. -/
theorem nextAux_deadEnd (vr : Varouter) (P : Str) (q : Element)
    (hv : q.hasvariable = []) (hw : q.haswildcards = false) (hp : q.hasPfxs = false)
    (hs : q.subs = Subs.nil) :
    ∀ gas f marker cursor st, P.length ≤ cursor + gas →
      nextAux vr P f q marker cursor st = st := by
  intro gas
  induction gas with
  | zero =>
      intro f marker cursor st hle
      rw [nextAux, dif_neg (by omega)]
      exact (matchLevel_deadEnd vr P q hv hw hp hs f cursor marker st).2
  | succ gas IH =>
      intro f marker cursor st hle
      rw [nextAux]
      by_cases hcl : cursor < P.length
      · rw [dif_pos hcl]
        by_cases hsep : getByte P cursor ≠ vr.separator
        · rw [if_pos hsep]
          exact IH f marker (cursor + 1) st (by omega)
        · rw [if_neg hsep]
          obtain ⟨hq, hst⟩ := matchLevel_deadEnd vr P q hv hw hp hs f cursor marker st
          rcases hr : matchLevel vr P f q cursor marker st with ⟨b, cur1, st1⟩
          rw [hr] at hq hst
          simp only [] at hq hst
          cases b
          · simp only []
            rw [hq, hst]
            exact IH f cursor (cursor + 1) st (by omega)
          · simp only []
            exact hst
      · rw [dif_neg hcl]
        exact (matchLevel_deadEnd vr P q hv hw hp hs f cursor marker st).2

/-- The `"/x/+"` terminal node of `vr7`. -/
def p7 : Element := .mk .nil (str "/x/+") [] true false false false false

/-- The `"/x"` interior node of `vr7` (its `hasPfxs` bit is set). -/
def x7 : Element := .mk (.cons (str "/") p7 .nil) [] [] false false false true false

theorem vr7_root :
    vr7.root = .mk (.cons (str "/x") x7 .nil) [] [] false false false false false := by
  simp [vr7, p7, x7, Register, scanPfx, regAux, matchOrInsert, MOIOut.countd,
    mkChild, hasWildcards, validateVariableName, Subs.lookup, Subs.push, Subs.set, Subs.isNil,
    Element.subs, Element.template, Element.hasvariable, Element.isPfx, Element.isoverride,
    Element.iswildcard, Element.hasPfxs, Element.haswildcards, Element.setSubs,
    Element.setTemplate, Element.setHasvariable, Element.setIsoverride, Element.markHasPfxs,
    Element.markHaswildcards, newElement, New, NewVarouter, getByte, substr, str]

theorem vr7_sep : vr7.separator = '/' := by
  simp [vr7, Register, scanPfx, regAux, matchOrInsert, New, NewVarouter, getByte, substr, str]

/-- The match state after the prefix terminal `"/x/+"` has been recorded. -/
def stFin7 : MSt := { ms := [str "/x/+"], vars := [], hasoverride := false }

/-- Any level processed at the `"/x"` node of `vr7` on a path of the form
`"/x/..."` records the prefix match `"/x/+"` and stops. -/
theorem c7_ml2 (R : List Char) (g cursor : Nat) (h3 : 3 ≤ cursor) :
    (matchLevel vr7 ('/' :: 'x' :: '/' :: R) (g + 1) x7 cursor 2 MSt.init).1 = true ∧
    (matchLevel vr7 ('/' :: 'x' :: '/' :: R) (g + 1) x7 cursor 2 MSt.init).2.2 = stFin7 := by
  have hL : ('/' :: 'x' :: '/' :: R).length = 3 + R.length := by simp; omega
  rw [matchLevel]
  rw [if_neg (show ¬ 2 > ('/' :: 'x' :: '/' :: R).length by rw [hL]; omega)]
  have hname : ∃ tail, (if cursor ≥ ('/' :: 'x' :: '/' :: R).length
      then ('/' :: 'x' :: '/' :: R).drop 2
      else substr ('/' :: 'x' :: '/' :: R) 2 cursor) = '/' :: tail := by
    by_cases hc : cursor ≥ ('/' :: 'x' :: '/' :: R).length
    · exact ⟨R, by rw [if_pos hc]; rfl⟩
    · refine ⟨R.take (cursor - 3), ?_⟩
      rw [if_neg hc]
      have hck : cursor - 2 = (cursor - 3) + 1 := by omega
      simp only [substr, List.drop]
      rw [hck]
      simp
  obtain ⟨tail, hname⟩ := hname
  generalize hnm : (if cursor ≥ ('/' :: 'x' :: '/' :: R).length
      then ('/' :: 'x' :: '/' :: R).drop 2
      else substr ('/' :: 'x' :: '/' :: R) 2 cursor) = nm at hname ⊢
  rw [if_neg (show ¬ nm = [] by rw [hname]; simp)]
  rw [if_neg (show ¬ x7.hasvariable ≠ [] by simp [x7, Element.hasvariable])]
  rw [if_pos (show x7.haswildcards = true ∨ x7.hasPfxs = true by
    simp [x7, Element.haswildcards, Element.hasPfxs])]
  have hscan : scanSubs vr7 ('/' :: 'x' :: '/' :: R) (g + 1) nm cursor x7.subs MSt.init
      = stFin7 := by
    rw [show x7.subs = .cons (str "/") p7 .nil from rfl]
    rw [scanSubs]
    rw [if_neg (show ¬ (p7.iswildcard = true ∧
        matchWildcard vr7 nm (str "/") = true) by
      simp [p7, Element.iswildcard])]
    rw [if_pos (show p7.isPfx = true ∧ nm.length ≥ (str "/").length ∧
        nm.take (str "/").length = str "/" by
      refine ⟨rfl, ?_, ?_⟩ <;> rw [hname] <;> simp [str] <;> rfl)]
    have had : (addMatch p7 MSt.init).2 = stFin7 := rfl
    rw [had]
    rw [nextAux_deadEnd vr7 _ p7 rfl rfl rfl rfl ('/' :: 'x' :: '/' :: R).length g cursor
      (cursor + 1) stFin7 (by omega)]
    rw [scanSubs]
  rw [hscan]
  rcases hlk : x7.subs.lookup nm with _ | c
  · simp only [hlk]
    exact ⟨by trivial, by trivial⟩
  · simp only [hlk]
    have hc : c = p7 := by
      rw [show x7.subs = .cons (str "/") p7 .nil from rfl] at hlk
      rw [Subs.lookup] at hlk
      by_cases hk : str "/" = nm
      · rw [if_pos hk] at hlk
        cases hlk
        rfl
      · rw [if_neg hk, Subs.lookup] at hlk
        cases hlk
    subst hc
    rw [show maybeAddMatch ('/' :: 'x' :: '/' :: R).length p7 cursor stFin7 = (false, stFin7)
      from rfl]
    simp only []
    rw [nextAux_deadEnd vr7 _ p7 rfl rfl rfl rfl ('/' :: 'x' :: '/' :: R).length g cursor
      (cursor + 1) stFin7 (by omega)]
    exact ⟨by trivial, by trivial⟩

/-- The outer loop at the `"/x"` node of `vr7` yields exactly the prefix
match, for every suffix and every scan position. -/
theorem c7_loop (R : List Char) :
    ∀ gas g cursor, 3 ≤ cursor → ('/' :: 'x' :: '/' :: R).length ≤ cursor + gas →
      nextAux vr7 ('/' :: 'x' :: '/' :: R) (g + 1) x7 2 cursor MSt.init = stFin7 := by
  intro gas
  induction gas with
  | zero =>
      intro g cursor h3 hle
      rw [nextAux, dif_neg (by omega)]
      exact (c7_ml2 R g cursor h3).2
  | succ gas IH =>
      intro g cursor h3 hle
      rw [nextAux]
      by_cases hcl : cursor < ('/' :: 'x' :: '/' :: R).length
      · rw [dif_pos hcl]
        by_cases hsep : getByte ('/' :: 'x' :: '/' :: R) cursor ≠ vr7.separator
        · rw [if_pos hsep]
          exact IH g (cursor + 1) (by omega) (by omega)
        · rw [if_neg hsep]
          obtain ⟨hstp, hst⟩ := c7_ml2 R g cursor h3
          rcases hr : matchLevel vr7 ('/' :: 'x' :: '/' :: R) (g + 1) x7 cursor 2 MSt.init
            with ⟨b, cur1, st1⟩
          rw [hr] at hstp hst
          simp only [] at hstp hst
          rw [hstp]
          simp only []
          exact hst
      · rw [dif_neg hcl]
        exact (c7_ml2 R g cursor h3).2

/-- The root level of `vr7` on a path `"/x/..."`: descend into the `"/x"`
node and continue from position 2. -/
theorem c7_root (R : List Char) (g : Nat) :
    matchLevel vr7 ('/' :: 'x' :: '/' :: R) (g + 1)
      (.mk (.cons (str "/x") x7 .nil) [] [] false false false false false) 2 0 MSt.init =
    (true, x7, nextAux vr7 ('/' :: 'x' :: '/' :: R) g x7 2 3 MSt.init) := by
  have hL : ('/' :: 'x' :: '/' :: R).length = 3 + R.length := by simp; omega
  rw [matchLevel]
  rw [if_neg (show ¬ 0 > ('/' :: 'x' :: '/' :: R).length by omega)]
  rw [if_neg (show ¬ 2 ≥ ('/' :: 'x' :: '/' :: R).length by omega)]
  rw [if_neg (show ¬ substr ('/' :: 'x' :: '/' :: R) 0 2 = [] by simp [substr])]
  rw [if_neg (show ¬ (Element.mk (.cons (str "/x") x7 .nil)
      [] [] false false false false false).hasvariable ≠ [] by
    simp [Element.hasvariable])]
  rw [if_neg (show ¬ ((Element.mk (.cons (str "/x") x7 .nil)
        [] [] false false false false false).haswildcards = true ∨
      (Element.mk (.cons (str "/x") x7 .nil)
        [] [] false false false false false).hasPfxs = true) by
    simp [Element.haswildcards, Element.hasPfxs])]
  rw [show (Element.mk (.cons (str "/x") x7 .nil)
      [] [] false false false false false).subs.lookup
      (substr ('/' :: 'x' :: '/' :: R) 0 2) = some x7 by
    simp [Element.subs, Subs.lookup, substr, str]]
  simp only []
  rw [show maybeAddMatch ('/' :: 'x' :: '/' :: R).length x7 2 MSt.init = (false, MSt.init)
    from rfl]
  simp

/-- Claim C7 (amended): with `"/x/+"` registered, every path consisting of
`"/x"` followed by a separator and an arbitrary suffix — i.e. starting with
the element `"/x"` and containing at least one more element — matches
exactly `"/x/+"`; and `Match("/x")` does not include it. -/
theorem C7_theorem :
    (∀ R : List Char, (Match vr7 ('/' :: 'x' :: '/' :: R)).1 = [str "/x/+"]) ∧
    (Match vr7 (str "/x")).1 = [] := by
  constructor
  · intro R
    have hL : ('/' :: 'x' :: '/' :: R).length = 3 + R.length := by simp; omega
    simp only [Match, matchImpl]
    rw [if_neg (show ¬ ('/' :: 'x' :: '/' :: R).length < 1 by omega)]
    rw [vr7_root]
    rw [show ('/' :: 'x' :: '/' :: R).length + 3 = (R.length + 5) + 1 by omega]
    rw [nextAux, dif_pos (show 1 < ('/' :: 'x' :: '/' :: R).length by omega)]
    rw [if_pos (show getByte ('/' :: 'x' :: '/' :: R) 1 ≠ vr7.separator by
      rw [vr7_sep]
      exact (by decide : ('x' : Char) ≠ '/'))]
    rw [nextAux, dif_pos (show 2 < ('/' :: 'x' :: '/' :: R).length by omega)]
    rw [if_neg (show ¬ getByte ('/' :: 'x' :: '/' :: R) 2 ≠ vr7.separator by
      rw [vr7_sep]
      simp [getByte])]
    rw [c7_root R (R.length + 5)]
    simp only []
    rw [show R.length + 5 = (R.length + 4) + 1 by omega]
    rw [c7_loop R ('/' :: 'x' :: '/' :: R).length (R.length + 4) 3 (by omega) (by omega)]
    rfl
  · simp [Match, matchImpl, nextAux, matchLevel, scanSubs, addMatch, maybeAddMatch, varsSet,
      MSt.init, matchWildcard, phase1Impl, matchWildcardLoop, vr7, Register, scanPfx, regAux,
      matchOrInsert, MOIOut.countd, mkChild, hasWildcards, validateVariableName, Subs.lookup,
      Subs.push, Subs.set, Subs.isNil, Element.subs, Element.template, Element.hasvariable,
      Element.isPfx, Element.isoverride, Element.iswildcard, Element.hasPfxs,
      Element.haswildcards, Element.setSubs, Element.setTemplate, Element.setHasvariable,
      Element.setIsoverride, Element.markHasPfxs, Element.markHaswildcards, newElement, New,
      NewVarouter, getByte, substr, str]

/-! ## Chain preservation (C9) -/

/-- Second characterisation of `matchOrInsert`: on error the parent's sub
map is untouched; on success only the stepped-to key changes. -/
theorem matchOrInsert_spec2 (vr : Varouter) (e : Element) (name0 : Str) (final ov : Bool) :
    ((matchOrInsert vr e name0 final ov).err.isSome = true →
      (matchOrInsert vr e name0 final ov).parent.subs = e.subs) ∧
    ((matchOrInsert vr e name0 final ov).err = none →
      ∀ k, k ≠ (matchOrInsert vr e name0 final ov).key →
        (matchOrInsert vr e name0 final ov).parent.subs.lookup k = e.subs.lookup k) := by
  unfold matchOrInsert
  simp only []
  generalize hpb : (decide (getByte name0 (List.length name0 - 1) = vr.pfxc)) = pb
  generalize hnm : (if pb = true then List.dropLast name0 else name0) = nm
  rcases hlk : e.subs.lookup nm with _ | elem
  · generalize hwb : hasWildcards vr nm = wb
    simp only [hlk, hwb]
    have hsubsE2 : (if wb = true then
        (if pb = true then e.markHasPfxs else e).markHaswildcards
        else if pb = true then e.markHasPfxs else e).subs = e.subs := by
      cases pb <;> cases wb <;>
        simp [markHasPfxs_subs, markHaswildcards_subs]
    generalize hg2 : (if wb = true then
        (if pb = true then e.markHasPfxs else e).markHaswildcards
        else if pb = true then e.markHasPfxs else e) = e2
    rw [hg2] at hsubsE2
    by_cases hvv : e2.hasvariable ≠ []
    · simp only [if_pos hvv]
      exact ⟨fun _ => hsubsE2, by simp⟩
    · simp only [if_neg hvv]
      by_cases hvar : nm.length > 1 ∧ getByte nm 1 = vr.varc
      · simp only [if_pos hvar]
        rcases hvn : validateVariableName vr nm with _ | er
        · simp only [hvn]
          by_cases hsn : e2.subs.isNil = false
          · simp only [if_pos hsn]
            exact ⟨fun _ => hsubsE2, by simp⟩
          · simp only [if_neg hsn]
            by_cases hww : wb = true
            · simp only [if_pos hww]
              exact ⟨fun _ => hsubsE2, by simp⟩
            · simp only [if_neg hww]
              refine ⟨by simp, ?_⟩
              intro _ k hk
              rw [setSubs_subs, lookup_push_other _ _ _ hk, setHasvariable_subs, hsubsE2]
        · simp only [hvn]
          exact ⟨fun _ => hsubsE2, by simp⟩
      · simp only [if_neg hvar]
        refine ⟨by simp, ?_⟩
        intro _ k hk
        rw [setSubs_subs, lookup_push_other _ _ _ hk, hsubsE2]
  · simp only [hlk]
    by_cases hfin : final = true ∧ e.template ≠ []
    · simp only [if_pos hfin]
      exact ⟨by simp, by simp⟩
    · simp only [if_neg hfin]
      exact ⟨by simp, by simp⟩

/-- Lookup-preserving tree growth: every child present before is still
present, with an extended subtree. -/
inductive Extends : Element → Element → Prop
  | mk {e e2 : Element} :
      (∀ k v v2, e.subs.lookup k = some v → e2.subs.lookup k = some v2 → Extends v v2) →
      (∀ k v, e.subs.lookup k = some v → (e2.subs.lookup k).isSome = true) →
      Extends e e2

theorem Extends.refl : ∀ e : Element, Extends e e := by
  refine @elemInd _ (fun s => ∀ k v, s.lookup k = some v → Extends v v) ?_ ?_ ?_
  · intro s t v p o w hp hw ihs
    refine .mk ?_ ?_
    · intro k v v2 h h2
      rw [h] at h2
      cases h2
      exact ihs k v h
    · intro k v h
      rw [h]
      rfl
  · intro k v h
    simp [Subs.lookup] at h
  · intro key val rest ihv ihs k v h
    rw [Subs.lookup] at h
    by_cases hak : key = k
    · rw [if_pos hak] at h
      cases h
      exact ihv
    · rw [if_neg hak] at h
      exact ihs k v h

theorem extends_of_subs_eq {e e2 : Element} (h : e2.subs = e.subs) : Extends e e2 := by
  refine .mk ?_ ?_
  · intro k v v2 hl hl2
    rw [h, hl] at hl2
    cases hl2
    exact Extends.refl v
  · intro k v hl
    rw [h, hl]
    rfl

theorem chainExists_mono (vr : Varouter) :
    ∀ (names : List Str) (e e2 : Element), Extends e e2 →
      chainExists vr e names = true → chainExists vr e2 names = true := by
  intro names
  induction names with
  | nil => intro e e2 _ _; rfl
  | cons n rest ih =>
      intro e e2 hext hch
      rw [chainExists] at hch ⊢
      rcases hlk : e.subs.lookup (stripPfx vr n) with _ | c
      · rw [hlk] at hch
        simp at hch
      · rw [hlk] at hch
        rcases hext with ⟨hf1, hf2⟩
        have hiss := hf2 _ c hlk
        rcases hlk2 : e2.subs.lookup (stripPfx vr n) with _ | c2
        · rw [hlk2] at hiss
          simp at hiss
        · simp only [] at hch ⊢
          exact ih c c2 (hf1 _ c c2 hlk hlk2) hch

/-- Registration only grows the tree: every pre-existing child chain is
preserved. -/
theorem regAux_extends (vr : Varouter) (tpl : Str) (ov : Bool) :
    ∀ gas e marker cursor, tpl.length ≤ cursor + gas →
      Extends e (regAux vr tpl e marker cursor ov).tree := by
  intro gas
  have hfin : ∀ e marker cursor, ¬ cursor < tpl.length →
      Extends e (regAux vr tpl e marker cursor ov).tree := by
    intro e marker cursor hcl
    rw [regAux, dif_neg hcl]
    have hspec := matchOrInsert_spec vr e (substr tpl marker cursor) true ov
    have hspec2 := matchOrInsert_spec2 vr e (substr tpl marker cursor) true ov
    generalize hm : matchOrInsert vr e (substr tpl marker cursor) true ov = m
    rw [hm] at hspec hspec2
    obtain ⟨hkey, htp, hcon, hex, hdup, hexe, hok⟩ := hspec
    obtain ⟨hsub2, hoth⟩ := hspec2
    rcases hme : m.err with _ | er
    · simp only [hme]
      obtain ⟨hlkp, hexq, hfresh⟩ := hok hme
      by_cases hexi : m.existing = true
      · simp only [hexi, if_true]
        exact extends_of_subs_eq (by rw [(hexq hexi).1])
      · have hexi2 : m.existing = false := by simpa using hexi
        simp only [hexi2, Bool.false_eq_true, if_false]
        have hnone : e.subs.lookup m.key = none := by
          rw [hkey]
          rcases hl : e.subs.lookup (stripPfx vr (substr tpl marker cursor)) with _ | c
          · rfl
          · exfalso
            rw [hexi2, hl] at hex
            simp at hex
        refine .mk ?_ ?_
        · intro k v v2 hl hl2
          have hk : k ≠ m.key := by
            intro hkk
            rw [hkk, hnone] at hl
            cases hl
          rw [setSubs_subs, lookup_set_other _ _ _ hk, hoth hme k hk, hl] at hl2
          cases hl2
          exact Extends.refl v
        · intro k v hl
          have hk : k ≠ m.key := by
            intro hkk
            rw [hkk, hnone] at hl
            cases hl
          rw [setSubs_subs, lookup_set_other _ _ _ hk, hoth hme k hk, hl]
          rfl
    · simp only [hme]
      exact extends_of_subs_eq (hsub2 (by rw [hme]; rfl))
  induction gas with
  | zero =>
      intro e marker cursor hle
      exact hfin e marker cursor (by omega)
  | succ gas IH =>
      intro e marker cursor hle
      by_cases hcl : cursor < tpl.length
      · rw [regAux, dif_pos hcl]
        by_cases hsep : getByte tpl cursor ≠ vr.separator
        · rw [if_pos hsep]
          exact IH e marker (cursor + 1) (by omega)
        · rw [if_neg hsep]
          have hspec := matchOrInsert_spec vr e (substr tpl marker cursor) false ov
          have hspec2 := matchOrInsert_spec2 vr e (substr tpl marker cursor) false ov
          generalize hm : matchOrInsert vr e (substr tpl marker cursor) false ov = m
          rw [hm] at hspec hspec2
          obtain ⟨hkey, htp, hcon, hex, hdup, hexe, hok⟩ := hspec
          obtain ⟨hsub2, hoth⟩ := hspec2
          rcases hme : m.err with _ | er
          · simp only [hme]
            obtain ⟨hlkp, hexq, hfresh⟩ := hok hme
            have hrec := IH m.child cursor (cursor + 1) (by omega)
            refine .mk ?_ ?_
            · intro k v v2 hl hl2
              by_cases hk : k = m.key
              · subst hk
                have hext : m.existing = true := by
                  rw [hex, ← hkey, hl]
                  rfl
                obtain ⟨hpe, hlke⟩ := hexq hext
                rw [hlke] at hl
                cases hl
                rw [setSubs_subs, lookup_set_self _ _ _ _ hlkp] at hl2
                cases hl2
                exact hrec
              · rw [setSubs_subs, lookup_set_other _ _ _ hk, hoth hme k hk, hl] at hl2
                cases hl2
                exact Extends.refl v
            · intro k v hl
              by_cases hk : k = m.key
              · subst hk
                rw [setSubs_subs, lookup_set_self _ _ _ _ hlkp]
                rfl
              · rw [setSubs_subs, lookup_set_other _ _ _ hk, hoth hme k hk, hl]
                rfl
          · simp only [hme]
            exact extends_of_subs_eq (hsub2 (by rw [hme]; rfl))
      · exact hfin e marker cursor hcl

/-- A successful registration walk leaves the walked element chain present
in the returned tree. -/
theorem regAux_success_chain (vr : Varouter) (tpl : Str) (ov : Bool) :
    ∀ gas e marker cursor, tpl.length ≤ cursor + gas →
      (regAux vr tpl e marker cursor ov).err = none →
      chainExists vr (regAux vr tpl e marker cursor ov).tree
        (elemsFrom vr tpl marker cursor) = true := by
  intro gas
  have hfin : ∀ e marker cursor, ¬ cursor < tpl.length →
      (regAux vr tpl e marker cursor ov).err = none →
      chainExists vr (regAux vr tpl e marker cursor ov).tree
        (elemsFrom vr tpl marker cursor) = true := by
    intro e marker cursor hcl
    rw [regAux, dif_neg hcl, elemsFrom, dif_neg hcl]
    have hspec := matchOrInsert_spec vr e (substr tpl marker cursor) true ov
    generalize hm : matchOrInsert vr e (substr tpl marker cursor) true ov = m
    rw [hm] at hspec
    obtain ⟨hkey, htp, hcon, hex, hdup, hexe, hok⟩ := hspec
    rcases hme : m.err with _ | er
    · simp only [hme]
      obtain ⟨hlkp, hexq, hfresh⟩ := hok hme
      by_cases hexi : m.existing = true
      · simp only [hexi, if_true]
        intro hc
        cases hc
      · have hexi2 : m.existing = false := by simpa using hexi
        simp only [hexi2, Bool.false_eq_true, if_false]
        intro _
        have hset := lookup_set_self m.key
          ((if ov then m.child.setIsoverride else m.child).setTemplate tpl)
          m.parent.subs m.child hlkp
        simp only [chainExists, setSubs_subs, ← hkey, hset]
    · simp only [hme]
      intro hc
      cases hc
  induction gas with
  | zero =>
      intro e marker cursor hle
      exact hfin e marker cursor (by omega)
  | succ gas IH =>
      intro e marker cursor hle
      by_cases hcl : cursor < tpl.length
      · rw [regAux, dif_pos hcl, elemsFrom, dif_pos hcl]
        by_cases hsep : getByte tpl cursor ≠ vr.separator
        · rw [if_pos hsep, if_pos hsep]
          exact IH e marker (cursor + 1) (by omega)
        · rw [if_neg hsep, if_neg hsep]
          have hspec := matchOrInsert_spec vr e (substr tpl marker cursor) false ov
          generalize hm : matchOrInsert vr e (substr tpl marker cursor) false ov = m
          rw [hm] at hspec
          obtain ⟨hkey, htp, hcon, hex, hdup, hexe, hok⟩ := hspec
          rcases hme : m.err with _ | er
          · simp only [hme]
            obtain ⟨hlkp, hexq, hfresh⟩ := hok hme
            intro herr
            have hrec := IH m.child cursor (cursor + 1) (by omega) (by simpa using herr)
            have hset := lookup_set_self m.key
              (regAux vr tpl m.child cursor (cursor + 1) ov).tree
              m.parent.subs m.child hlkp
            simp only [chainExists, setSubs_subs, ← hkey, hset]
            exact hrec
          · simp only [hme]
            intro hc
            cases hc
      · exact hfin e marker cursor hcl

/-! ## Enumeration completeness (C9): sequences of Register calls -/

/-- Equality of all configuration bytes of two routers (everything but the
tree and the count). -/
def ConfigEq (a b : Varouter) : Prop :=
  a.override = b.override ∧ a.separator = b.separator ∧ a.varc = b.varc ∧
  a.pfxc = b.pfxc ∧ a.wildcardone = b.wildcardone ∧ a.wildcardmany = b.wildcardmany

theorem configEq_trans {a b c : Varouter} (h1 : ConfigEq a b) (h2 : ConfigEq b c) :
    ConfigEq a c := by
  obtain ⟨x1, x2, x3, x4, x5, x6⟩ := h1
  obtain ⟨y1, y2, y3, y4, y5, y6⟩ := h2
  exact ⟨x1.trans y1, x2.trans y2, x3.trans y3, x4.trans y4, x5.trans y5, x6.trans y6⟩

theorem configEq_refl (a : Varouter) : ConfigEq a a :=
  ⟨rfl, rfl, rfl, rfl, rfl, rfl⟩

/-- `Register` only touches the tree and the count. -/
theorem Register_configEq (vr : Varouter) (tpl : Str) :
    ConfigEq (Register vr tpl).2 vr := by
  unfold Register
  by_cases h1 : tpl.length < 1
  · rw [if_pos h1]
    exact configEq_refl vr
  · rw [if_neg h1]
    by_cases h2 : scanPfx vr tpl 0 = true
    · rw [if_pos h2]
      exact configEq_refl vr
    · rw [if_neg h2]
      simp only []
      by_cases h3 : getByte tpl (if (decide (getByte tpl 0 = vr.override)) = true then 1 else 0)
          ≠ vr.separator
      · rw [if_pos h3]
        exact configEq_refl vr
      · rw [if_neg h3]
        exact ⟨rfl, rfl, rfl, rfl, rfl, rfl⟩

theorem stripPfx_congr {a b : Varouter} (h : ConfigEq a b) (n : Str) :
    stripPfx a n = stripPfx b n := by
  obtain ⟨_, _, _, hp, _, _⟩ := h
  simp [stripPfx, hp]

theorem scanPfx_congr {a b : Varouter} (h : ConfigEq a b) (tpl : Str) :
    ∀ gas cursor, tpl.length ≤ cursor + gas →
      scanPfx a tpl cursor = scanPfx b tpl cursor := by
  obtain ⟨_, _, _, hp, _, _⟩ := h
  intro gas
  induction gas with
  | zero =>
      intro cursor hle
      conv_lhs => rw [scanPfx]
      conv_rhs => rw [scanPfx]
      rw [dif_neg (show ¬ cursor < tpl.length by omega),
        dif_neg (show ¬ cursor < tpl.length by omega)]
  | succ gas IH =>
      intro cursor hle
      conv_lhs => rw [scanPfx]
      conv_rhs => rw [scanPfx]
      by_cases hcl : cursor < tpl.length
      · rw [dif_pos hcl, dif_pos hcl, hp]
        by_cases hc : getByte tpl cursor = b.pfxc ∧ cursor < tpl.length - 1
        · rw [if_pos hc, if_pos hc]
        · rw [if_neg hc, if_neg hc]
          exact IH (cursor + 1) (by omega)
      · rw [dif_neg hcl, dif_neg hcl]

theorem elemsFrom_congr {a b : Varouter} (h : ConfigEq a b) (tpl : Str) :
    ∀ gas marker cursor, tpl.length ≤ cursor + gas →
      elemsFrom a tpl marker cursor = elemsFrom b tpl marker cursor := by
  obtain ⟨_, hs, _, _, _, _⟩ := h
  intro gas
  induction gas with
  | zero =>
      intro marker cursor hle
      conv_lhs => rw [elemsFrom]
      conv_rhs => rw [elemsFrom]
      rw [dif_neg (show ¬ cursor < tpl.length by omega),
        dif_neg (show ¬ cursor < tpl.length by omega)]
  | succ gas IH =>
      intro marker cursor hle
      conv_lhs => rw [elemsFrom]
      conv_rhs => rw [elemsFrom]
      by_cases hcl : cursor < tpl.length
      · rw [dif_pos hcl, dif_pos hcl, hs]
        by_cases hc : getByte tpl cursor ≠ b.separator
        · rw [if_pos hc, if_pos hc]
          exact IH marker (cursor + 1) (by omega)
        · rw [if_neg hc, if_neg hc, IH cursor (cursor + 1) (by omega)]
      · rw [dif_neg hcl, dif_neg hcl]

theorem validShape_congr {a b : Varouter} (h : ConfigEq a b) (tpl : Str) :
    validShape a tpl = validShape b tpl := by
  have hsc := scanPfx_congr h tpl tpl.length 0 (by omega)
  obtain ⟨ho, hs, _, _, _, _⟩ := h
  simp only [validShape, hsc, ho, hs]

theorem tplElems_congr {a b : Varouter} (h : ConfigEq a b) (tpl : Str) :
    tplElems a tpl = tplElems b tpl := by
  have he := elemsFrom_congr h tpl
  obtain ⟨ho, _, _, _, _, _⟩ := h
  simp only [tplElems, ho]
  exact he tpl.length _ _ (Nat.le_add_left _ _)

theorem chainExists_congr {a b : Varouter} (h : ConfigEq a b) :
    ∀ (names : List Str) (e : Element),
      chainExists a e names = chainExists b e names := by
  intro names
  induction names with
  | nil => intro e; rfl
  | cons n rest ih =>
      intro e
      rw [chainExists, chainExists, stripPfx_congr h]
      rcases e.subs.lookup (stripPfx b n) with _ | c
      · rfl
      · exact ih c

/-- Registration only grows the tree, also at the root. -/
theorem Register_extends_root (vr : Varouter) (tpl : Str) :
    Extends vr.root (Register vr tpl).2.root := by
  unfold Register
  by_cases h1 : tpl.length < 1
  · rw [if_pos h1]
    exact Extends.refl vr.root
  · rw [if_neg h1]
    by_cases h2 : scanPfx vr tpl 0 = true
    · rw [if_pos h2]
      exact Extends.refl vr.root
    · rw [if_neg h2]
      simp only []
      by_cases h3 : getByte tpl (if (decide (getByte tpl 0 = vr.override)) = true then 1 else 0)
          ≠ vr.separator
      · rw [if_pos h3]
        exact Extends.refl vr.root
      · rw [if_neg h3]
        exact regAux_extends vr tpl _ tpl.length vr.root _ _ (Nat.le_add_left _ _)

/-- When `Register` succeeds, exactly one occurrence of the registered
template is added to `DefinedTemplates`. -/
theorem Register_ok_count (vr : Varouter) (tpl : Str)
    (h : (Register vr tpl).1 = none) (t : Str) :
    (DefinedTemplates (Register vr tpl).2).count t =
      (DefinedTemplates vr).count t + (if t = tpl then 1 else 0) := by
  unfold Register at h ⊢
  by_cases h1 : tpl.length < 1
  · rw [if_pos h1] at h
    simp at h
  · simp only [if_neg h1] at h ⊢
    by_cases h2 : scanPfx vr tpl 0 = true
    · rw [if_pos h2] at h
      simp at h
    · simp only [if_neg h2] at h ⊢
      have htpl : tpl ≠ [] := by
        intro hh
        rw [hh] at h1
        simp at h1
      generalize hov : (decide (getByte tpl 0 = vr.override)) = ovb at h ⊢
      by_cases h3 : getByte tpl (if ovb = true then 1 else 0) ≠ vr.separator
      · rw [if_pos h3] at h
        simp at h
      · simp only [if_neg h3] at h ⊢
        obtain ⟨htpre, hcnt⟩ := regAux_count vr tpl ovb htpl tpl.length vr.root
          (if ovb = true then 1 else 0) (if ovb = true then 2 else 1) (by omega)
        have h1t := hcnt t
        try simp only [] at h
        by_cases ht : t = tpl
        · rw [if_pos (show (regAux vr tpl vr.root (if ovb = true then 1 else 0)
              (if ovb = true then 2 else 1) ovb).err = none ∧ t = tpl from ⟨h, ht⟩)] at h1t
          rw [if_pos ht]
          rw [contrib_eq, contrib_eq, htpre] at h1t
          simp only [List.count_append] at h1t
          simp only [DefinedTemplates]
          try simp only []
          rw [printElement_eq_subs, printElement_eq_subs]
          omega
        · rw [if_neg (show ¬((regAux vr tpl vr.root (if ovb = true then 1 else 0)
              (if ovb = true then 2 else 1) ovb).err = none ∧ t = tpl) from
              fun hx => ht hx.2)] at h1t
          rw [if_neg ht]
          rw [contrib_eq, contrib_eq, htpre] at h1t
          simp only [List.count_append] at h1t
          simp only [DefinedTemplates]
          try simp only []
          rw [printElement_eq_subs, printElement_eq_subs]
          omega

/-- When `Register` succeeds the template passed the pre-walk validations. -/
theorem Register_ok_valid (vr : Varouter) (tpl : Str)
    (h : (Register vr tpl).1 = none) : validShape vr tpl = true := by
  unfold Register at h
  unfold validShape
  by_cases h1 : tpl.length < 1
  · rw [if_pos h1] at h
    simp at h
  · simp only [if_neg h1] at h ⊢
    by_cases h2 : scanPfx vr tpl 0 = true
    · rw [if_pos h2] at h
      simp at h
    · simp only [if_neg h2] at h ⊢
      generalize hov : (decide (getByte tpl 0 = vr.override)) = ovb at h ⊢
      by_cases h3 : getByte tpl (if ovb = true then 1 else 0) ≠ vr.separator
      · rw [if_pos h3] at h
        simp at h
      · simp only [if_neg h3]

/-- When `Register` succeeds the registered element chain exists in the
returned tree. -/
theorem Register_ok_chain (vr : Varouter) (tpl : Str)
    (h : (Register vr tpl).1 = none) :
    chainExists vr (Register vr tpl).2.root (tplElems vr tpl) = true := by
  unfold Register at h ⊢
  unfold tplElems
  by_cases h1 : tpl.length < 1
  · rw [if_pos h1] at h
    simp at h
  · simp only [if_neg h1] at h ⊢
    by_cases h2 : scanPfx vr tpl 0 = true
    · rw [if_pos h2] at h
      simp at h
    · simp only [if_neg h2] at h ⊢
      generalize hov : (decide (getByte tpl 0 = vr.override)) = ovb at h ⊢
      by_cases h3 : getByte tpl (if ovb = true then 1 else 0) ≠ vr.separator
      · rw [if_pos h3] at h
        simp at h
      · simp only [if_neg h3] at h ⊢
        try simp only [] at h ⊢
        exact regAux_success_chain vr tpl ovb tpl.length vr.root
          (if ovb = true then 1 else 0) (if ovb = true then 2 else 1)
          (Nat.le_add_left _ _) h

/-- An arbitrary sequence of `Register` calls: returns the final router and
the list of templates whose registration succeeded, in call order. -/
def registerAll : Varouter → List Str → Varouter × List Str
  | vr, [] => (vr, [])
  | vr, t :: ts =>
      ((registerAll (Register vr t).2 ts).1,
       (if (Register vr t).1 = none then [t] else []) ++ (registerAll (Register vr t).2 ts).2)

/-- Invariant of the registration sequence: the enumerated templates are
exactly the accumulated successes (as a multiset), each success is still a
valid existing chain (so re-registering fails), and no success repeats. -/
theorem registerAll_inv (ts : List Str) :
    ∀ vr succ,
      ConfigEq vr New →
      (∀ t, (DefinedTemplates vr).count t = succ.count t) →
      (∀ t ∈ succ, validShape vr t = true ∧
        chainExists vr vr.root (tplElems vr t) = true) →
      (∀ t, succ.count t ≤ 1) →
      ((∀ t, (DefinedTemplates (registerAll vr ts).1).count t =
          (succ ++ (registerAll vr ts).2).count t) ∧
       (∀ t, (succ ++ (registerAll vr ts).2).count t ≤ 1)) := by
  induction ts with
  | nil =>
      intro vr succ hcfg hcount hchains hle
      refine ⟨?_, ?_⟩
      · intro t
        simp only [registerAll, List.append_nil]
        exact hcount t
      · intro t
        simp only [registerAll, List.append_nil]
        exact hle t
  | cons t0 ts IH =>
      intro vr succ hcfg hcount hchains hle
      have hcfgR : ConfigEq (Register vr t0).2 vr := Register_configEq vr t0
      by_cases hok : (Register vr t0).1 = none
      · -- success: t0 cannot already be among the successes
        have ht0 : succ.count t0 = 0 := by
          by_cases hmem : t0 ∈ succ
          · exfalso
            obtain ⟨hv, hch⟩ := hchains t0 hmem
            have hdup := (Register_dup_iff vr t0).mpr ⟨hv, hch⟩
            rw [hok] at hdup
            cases hdup
          · exact List.count_eq_zero.mpr hmem
        have hsingle : ∀ t : Str, List.count t [t0] = if t = t0 then 1 else 0 := by
          intro t
          by_cases ht : t = t0
          · subst ht
            simp
          · simp [ht]
        have hcount' : ∀ t, (DefinedTemplates (Register vr t0).2).count t =
            (succ ++ [t0]).count t := by
          intro t
          rw [Register_ok_count vr t0 hok t, hcount t, List.count_append, hsingle t]
        have hchains' : ∀ t ∈ succ ++ [t0], validShape (Register vr t0).2 t = true ∧
            chainExists (Register vr t0).2 (Register vr t0).2.root
              (tplElems (Register vr t0).2 t) = true := by
          intro t ht
          rcases List.mem_append.mp ht with hin | hin
          · obtain ⟨hv, hch⟩ := hchains t hin
            refine ⟨by rw [validShape_congr hcfgR]; exact hv, ?_⟩
            rw [chainExists_congr hcfgR, tplElems_congr hcfgR]
            exact chainExists_mono vr (tplElems vr t) vr.root _
              (Register_extends_root vr t0) hch
          · have ht0eq : t = t0 := by
              cases hin with
              | head => rfl
              | tail _ hin => cases hin
            subst ht0eq
            refine ⟨by rw [validShape_congr hcfgR]; exact Register_ok_valid vr t hok, ?_⟩
            rw [chainExists_congr hcfgR, tplElems_congr hcfgR]
            exact Register_ok_chain vr t hok
        have hle' : ∀ t, (succ ++ [t0]).count t ≤ 1 := by
          intro t
          rw [List.count_append, hsingle t]
          by_cases ht : t = t0
          · subst ht
            rw [ht0, if_pos rfl]
          · rw [if_neg ht]
            have := hle t
            omega
        obtain ⟨hA, hB⟩ := IH (Register vr t0).2 (succ ++ [t0])
          (configEq_trans hcfgR hcfg) hcount' hchains' hle'
        refine ⟨?_, ?_⟩
        · intro t
          simp only [registerAll]
          rw [if_pos hok, ← List.append_assoc]
          exact hA t
        · intro t
          simp only [registerAll]
          rw [if_pos hok, ← List.append_assoc]
          exact hB t
      · -- failure: nothing changes in the enumeration
        obtain ⟨er, her⟩ : ∃ er, (Register vr t0).1 = some er := by
          rcases hf : (Register vr t0).1 with _ | er
          · exact absurd hf hok
          · exact ⟨er, rfl⟩
        have hcount' : ∀ t, (DefinedTemplates (Register vr t0).2).count t =
            succ.count t := by
          intro t
          rw [Register_err_count vr t0 er her t]
          exact hcount t
        have hchains' : ∀ t ∈ succ, validShape (Register vr t0).2 t = true ∧
            chainExists (Register vr t0).2 (Register vr t0).2.root
              (tplElems (Register vr t0).2 t) = true := by
          intro t ht
          obtain ⟨hv, hch⟩ := hchains t ht
          refine ⟨by rw [validShape_congr hcfgR]; exact hv, ?_⟩
          rw [chainExists_congr hcfgR, tplElems_congr hcfgR]
          exact chainExists_mono vr (tplElems vr t) vr.root _
            (Register_extends_root vr t0) hch
        obtain ⟨hA, hB⟩ := IH (Register vr t0).2 succ
          (configEq_trans hcfgR hcfg) hcount' hchains' hle
        refine ⟨?_, ?_⟩
        · intro t
          simp only [registerAll]
          rw [if_neg (by rw [her]; simp), List.nil_append]
          exact hA t
        · intro t
          simp only [registerAll]
          rw [if_neg (by rw [her]; simp), List.nil_append]
          exact hB t

/-- Claim C9: enumeration completeness — after any sequence of `Register`
calls on a fresh router (successful or failing), `DefinedTemplates`
contains every template whose registration succeeded exactly once, and
contains no other strings. -/
theorem C9_theorem (ts : List Str) (t : Str) :
    (DefinedTemplates (registerAll New ts).1).count t =
      if t ∈ (registerAll New ts).2 then 1 else 0 := by
  have hDTnew : ∀ u : Str, (DefinedTemplates New).count u = ([] : List Str).count u := by
    intro u
    rfl
  obtain ⟨hA, hB⟩ := registerAll_inv ts New [] (configEq_refl New) hDTnew
    (by intro u hu; cases hu) (by intro u; simp)
  have h1 := hA t
  have h2 := hB t
  rw [List.nil_append] at h1 h2
  rw [h1]
  by_cases hm : t ∈ (registerAll New ts).2
  · rw [if_pos hm]
    have hpos : 0 < (registerAll New ts).2.count t := List.count_pos_iff.mpr hm
    omega
  · rw [if_neg hm]
    exact List.count_eq_zero.mpr hm
